import Mathlib

/-!
# JOS labs: scheduler, trap dispatch, page-fault delivery, fault-handler registration

A shallow embedding of `kern/sched.c`, `kern/trap.c`, `lib/pgfault.c` and `lib/fork.c`.

* Machine words are natural numbers; 32-bit unsigned arithmetic is written with an
  explicit `% 2 ^ 32`.
* Functions of the kernel that never return to their caller (`env_run`, `panic`, the
  monitor loop) end the computation: every kernel entry point evaluates to an `Outcome`.
* Constants that live in headers outside the translated sources (`NENV`, `UXSTACKTOP`,
  `PGSIZE`, the size of `struct UTrapframe`, ...) are fields of `Consts`, `TrapConsts`
  and `UserConsts` and are parameters of every definition that uses them.
* The user library is a function of the kernel as it sees it: the result word of every
  system call and the read-only views `vpt` and `vpd`, each given the calls issued so
  far.  What the page operations do to the address spaces is a separate model,
  `AddrSpaces`, that interprets a sequence of calls.
-/

namespace JOS

/-! ## Data model -/

/-- Modelled from the spec: the process status values (`inc/env.h` is not among the
sources).  The translated code only ever compares a status with `ENV_RUNNABLE`. -/
inductive EnvStatus
  | ENV_FREE
  | ENV_RUNNABLE
  | ENV_RUNNING
  | ENV_NOT_RUNNABLE
  | ENV_DYING
  deriving DecidableEq, Repr

open EnvStatus

/-- The general purpose registers saved by `pusha`, with the fields that `print_regs`
reads. -/
structure PushRegs where
  reg_edi : Nat
  reg_esi : Nat
  reg_ebp : Nat
  reg_oesp : Nat
  reg_ebx : Nat
  reg_edx : Nat
  reg_ecx : Nat
  reg_eax : Nat
  deriving DecidableEq, Repr

/-- The saved processor context, with the fields that `print_trapframe` reads. -/
structure Trapframe where
  tf_regs : PushRegs
  tf_es : Nat
  tf_ds : Nat
  tf_trapno : Nat
  tf_err : Nat
  tf_eip : Nat
  tf_cs : Nat
  tf_eflags : Nat
  tf_esp : Nat
  tf_ss : Nat
  deriving DecidableEq, Repr

/-- The fault-context record pushed on the user exception stack, with the six fields
that `page_fault_handler` assigns. -/
structure UTrapframe where
  utf_fault_va : Nat
  utf_err : Nat
  utf_regs : PushRegs
  utf_eip : Nat
  utf_eflags : Nat
  utf_esp : Nat
  deriving DecidableEq, Repr

/-- One slot of the process table `envs`; `env_pgfault_upcall = 0` is the NULL pointer. -/
structure Env where
  env_id : Nat
  env_status : EnvStatus
  env_tf : Trapframe
  env_pgfault_upcall : Nat
  deriving DecidableEq, Repr

/-- Constants and layout facts that the translated functions use but that are declared
in headers that are not part of the translated sources.  They are parameters of the
model. -/
structure Consts where
  /-- Number of slots of the process table. -/
  NENV : Nat
  /-- Top of the user exception stack. -/
  UXSTACKTOP : Nat
  /-- Size of a page in bytes. -/
  PGSIZE : Nat
  /-- The value of sizeof(struct UTrapframe). -/
  sizeof_UTrapframe : Nat
  /-- Byte number i of the in-memory image of a fault-context record. -/
  utf_byte : UTrapframe → Nat → Nat
  /-- Page permission bit: present. -/
  PTE_P : Nat
  /-- Page permission bit: writable. -/
  PTE_W : Nat
  /-- Page permission bit: user accessible. -/
  PTE_U : Nat

/-- Where the `tf` argument of a trap handler points: at the frame that the trap entry
code built on the kernel stack, or at `curenv->env_tf` (where `trap` redirects it for
a trap taken in user mode). -/
inductive TfPtr
  | kstack
  | env_tf
  deriving DecidableEq, Repr

/-- The kernel state that the translated functions read and write. -/
structure Kernel where
  /-- The process table. -/
  envs : Nat → Env
  /-- Index of the current process in the table, or none for a NULL curenv. -/
  curenv : Option Nat
  /-- The static cursor of sched_yield. -/
  last_env_idx : Nat
  /-- The trap frame on the kernel stack. -/
  ktf : Trapframe
  /-- The page-fault linear address register, read by rcr2. -/
  cr2 : Nat
  /-- Bytes of the address space of the current process. -/
  mem : Nat → Nat
  /-- Result of the page-permission walk that user_mem_assert performs for the current
  process: arguments are the start address, the length and the required permissions. -/
  user_mem_check : Nat → Nat → Nat → Bool

/-- How a kernel entry point ends. -/
inductive Outcome
  /-- Control was transferred to the process in the given slot (env_run). -/
  | env_run (k : Kernel) (idx : Nat)
  /-- The kernel sits in the monitor loop for ever. -/
  | monitor (k : Kernel)
  /-- The kernel called panic (an assertion failure included). -/
  | panic (k : Kernel)
  /-- The function returned to its caller. -/
  | ret (k : Kernel)
  /-- The function dereferenced a NULL curenv. -/
  | undefined (k : Kernel)

/-- The slot that received control, if any. -/
def Outcome.ran : Outcome → Option Nat
  | .env_run _ idx => some idx
  | _ => none

/-- The kernel state at the end. -/
def Outcome.kernel : Outcome → Kernel
  | .env_run k _ => k
  | .monitor k => k
  | .panic k => k
  | .ret k => k
  | .undefined k => k

/-- The kernel ended in the monitor loop. -/
def Outcome.isMonitor : Outcome → Bool
  | .monitor _ => true
  | _ => false

/-- The kernel ended in a panic. -/
def Outcome.isPanic : Outcome → Bool
  | .panic _ => true
  | _ => false

/-! ## kern/sched.c -/

/-- Modelled from the spec: `env_run` (kern/env.c is not among the sources) is a one-way
transfer of control that restores the saved context of the chosen process; it makes that
process the current one and never returns.  It leaves the status alone: `trap` resumes
the current process exactly when its status is still `ENV_RUNNABLE`. -/
def env_run (k : Kernel) (idx : Nat) : Outcome :=
  .env_run { k with curenv := some idx } idx

/-- The loop of `sched_yield`: `i` is the loop counter and the last argument the number of
iterations that remain (`NENV - i`).  The result is the slot for which `env_run` is
called, or none when the loop runs to its end.  The sum `last_env_idx + i + 1` stays below
`2 * NENV`, far from the range of `int`, so it is computed on natural numbers. -/
def sched_scan (NENV : Nat) (envs : Nat → Env) (last_env_idx : Nat) : Nat → Nat → Option Nat
  | _, 0 => none
  | i, n + 1 =>
    let idx := (last_env_idx + i + 1) % NENV
    if idx = 0 then sched_scan NENV envs last_env_idx (i + 1) n
    else if (envs idx).env_status ≠ ENV_RUNNABLE then
      sched_scan NENV envs last_env_idx (i + 1) n
    else some idx

/-- Round-robin choice of the next process, `sched_yield` of kern/sched.c. -/
def sched_yield (C : Consts) (k : Kernel) : Outcome :=
  match sched_scan C.NENV k.envs k.last_env_idx 0 C.NENV with
  | some idx => env_run { k with last_env_idx := idx } idx
  | none =>
    if (k.envs 0).env_status = ENV_RUNNABLE then env_run k 0
    else .monitor k

/-- A slot that the loop of `sched_yield` accepts: not the idle slot, and RUNNABLE. -/
def Candidate (envs : Nat → Env) (idx : Nat) : Prop :=
  idx ≠ 0 ∧ (envs idx).env_status = ENV_RUNNABLE

instance (envs : Nat → Env) (idx : Nat) : Decidable (Candidate envs idx) := by
  unfold Candidate; infer_instance

/-- Consecutive invocations of `sched_yield`: each starts from the state the previous one
left (the process table as it was, the cursor as updated). -/
def sched_yield_seq (C : Consts) : Nat → Kernel → List Outcome
  | 0, _ => []
  | n + 1, k =>
    let o := sched_yield C k
    o :: sched_yield_seq C n o.kernel

/-! ## kern/trap.c: page_fault_handler -/

/-- Unsigned 32-bit subtraction, as C computes it on `uint32_t` operands. -/
def sub32 (a b : Nat) : Nat :=
  (a % 2 ^ 32 + 2 ^ 32 - b % 2 ^ 32) % 2 ^ 32

/-- The frame a `tf` pointer refers to; `&curenv->env_tf` does not exist when curenv is
NULL. -/
def read_tf (k : Kernel) : TfPtr → Option Trapframe
  | .kstack => some k.ktf
  | .env_tf => k.curenv.map fun cur => (k.envs cur).env_tf

/-- Assignment through a `tf` pointer (`cur` is the slot of curenv). -/
def write_tf (k : Kernel) (cur : Nat) (p : TfPtr) (f : Trapframe) : Kernel :=
  match p with
  | .kstack => { k with ktf := f }
  | .env_tf => { k with envs := Function.update k.envs cur { k.envs cur with env_tf := f } }

/-- The assignment `*(struct UTrapframe *)addr = utf`: the bytes
`addr .. addr + sizeof(struct UTrapframe) - 1` receive the image of the record, every
other byte keeps its value. -/
def store_utf (C : Consts) (mem : Nat → Nat) (addr : Nat) (utf : UTrapframe) : Nat → Nat :=
  fun a => if addr ≤ a ∧ a < addr + C.sizeof_UTrapframe then C.utf_byte utf (a - addr) else mem a

/-- Modelled from the spec: `env_destroy` (kern/env.c is not among the sources).  The
destroyed process is reclaimed (its slot becomes FREE, no other slot changes) and leaves
scheduling consideration at once.  When it is the current process, curenv becomes NULL and
the scheduler takes over, so control does not come back to the caller: the spec has the
fault path destroy the process instead of storing the record, and has the scheduler
invoked whenever dispatch leaves no process to resume. -/
def env_destroy (C : Consts) (k : Kernel) (idx : Nat) : Outcome :=
  let k1 : Kernel :=
    { k with envs := Function.update k.envs idx { k.envs idx with env_status := ENV_FREE } }
  if k.curenv = some idx then sched_yield C { k1 with curenv := none }
  else .ret k1

/-- Modelled from the spec: `user_mem_assert` (kern/pmap.c is not among the sources)
checks that the range is mapped with the required permissions in the address space of the
process; a violation destroys the process, otherwise the caller goes on with `rest`. -/
def user_mem_assert (C : Consts) (k : Kernel) (cur va len perm : Nat) (rest : Outcome) :
    Outcome :=
  if ¬ k.user_mem_check va len perm then env_destroy C k cur else rest

/-- The page-fault handler of kern/trap.c.  Console output (`cprintf`,
`print_trapframe`) has no effect on the state and is left out. -/
def page_fault_handler (C : Consts) (k : Kernel) (tf : TfPtr) : Outcome :=
  let fault_va := k.cr2
  match read_tf k tf with
  | none => .undefined k
  | some f =>
    if f.tf_cs &&& 3 ≠ 3 then
      -- assert((tf->tf_cs & 3) == 0); panic("page fault inside kernel");
      .panic k
    else
      match k.curenv with
      | none => .undefined k
      | some cur =>
        let upcall := (k.envs cur).env_pgfault_upcall
        -- env_destroy(curenv) hands over to the scheduler: nothing after it is executed
        if upcall = 0 then env_destroy C k cur
        else
          user_mem_assert C k cur (sub32 C.UXSTACKTOP C.PGSIZE) C.PGSIZE
            (C.PTE_U ||| C.PTE_P ||| C.PTE_W) <|
          user_mem_assert C k cur upcall 4 (C.PTE_P ||| C.PTE_U) <|
          let utf : UTrapframe :=
            { utf_eflags := f.tf_eflags
              utf_fault_va := fault_va
              utf_regs := f.tf_regs
              utf_err := f.tf_err
              utf_eip := f.tf_eip
              utf_esp := f.tf_esp }
          let esp1 :=
            if f.tf_esp < C.UXSTACKTOP ∧ f.tf_esp ≥ sub32 C.UXSTACKTOP C.PGSIZE then
              sub32 f.tf_esp 4
            else C.UXSTACKTOP
          let esp2 := sub32 esp1 C.sizeof_UTrapframe
          let k1 := write_tf k cur tf { f with tf_esp := esp2, tf_eip := upcall }
          if esp2 < sub32 C.UXSTACKTOP C.PGSIZE then env_destroy C k1 cur
          else env_run { k1 with mem := store_utf C k1.mem esp2 utf } cur

/-- The value that lines 298 to 305 of kern/trap.c leave in `tf->tf_esp`, as a function of
the trap-time stack pointer: the address computed for the fault-context record. -/
def pushed_esp (C : Consts) (esp : Nat) : Nat :=
  sub32 (if esp < C.UXSTACKTOP ∧ esp ≥ sub32 C.UXSTACKTOP C.PGSIZE then sub32 esp 4
    else C.UXSTACKTOP) C.sizeof_UTrapframe

/-- The fault-context record that `page_fault_handler` builds from the frame and the
faulting address. -/
def build_utf (f : Trapframe) (fault_va : Nat) : UTrapframe :=
  { utf_eflags := f.tf_eflags
    utf_fault_va := fault_va
    utf_regs := f.tf_regs
    utf_err := f.tf_err
    utf_eip := f.tf_eip
    utf_esp := f.tf_esp }

/-- Facts about the memory layout of the JOS headers on which the address arithmetic of
the page-fault path relies: addresses are 32-bit, the exception stack page lies below
`UXSTACKTOP`, a fault-context record fits in a page, and the exception stack page does not
sit at the very bottom of the address space. -/
def Consts.LayoutOk (C : Consts) : Prop :=
  C.UXSTACKTOP < 2 ^ 32 ∧ C.PGSIZE ≤ C.UXSTACKTOP ∧ C.sizeof_UTrapframe ≤ C.PGSIZE ∧
    4 + C.sizeof_UTrapframe ≤ C.UXSTACKTOP - C.PGSIZE

instance (C : Consts) : Decidable C.LayoutOk := by
  unfold Consts.LayoutOk; infer_instance

/-! ## kern/trap.c: trap_dispatch and trap -/

/-- Trap numbers and the kernel code segment selector, declared in headers that are not
part of the translated sources.  They are parameters of the model. -/
structure TrapConsts where
  /-- Trap number of a page fault. -/
  T_PGFLT : Nat
  /-- Trap number of the system call vector. -/
  T_SYSCALL : Nat
  /-- Vector of hardware interrupt 0, the timer. -/
  IRQ_OFFSET : Nat
  /-- Number of the spurious hardware interrupt. -/
  IRQ_SPURIOUS : Nat
  /-- Selector of the kernel code segment. -/
  GD_KT : Nat

/-- How a call of the external system call dispatcher `syscall` ends: it returns a result
word in some kernel state, or it transfers control and never returns. -/
inductive SyscallEnd
  | returned (k : Kernel) (ret : Int)
  | noreturn (o : Outcome)

/-- The external system call dispatcher: kernel state, call number and five argument
words. -/
abbrev SyscallFn := Kernel → Nat → Nat → Nat → Nat → Nat → Nat → SyscallEnd

/-- Conversion of an `int32_t` to `uint32_t`, as the assignment to `reg_eax` performs it. -/
def to_u32 (r : Int) : Nat := (r % 2 ^ 32).toNat

/-- The assignment `tf->tf_regs.reg_eax = ret` in state `k1`; `cur` is the slot that
`tf` points into when it points at a saved context. -/
def store_eax (k1 : Kernel) (cur : Option Nat) (tf : TfPtr) (ret : Int) : Outcome :=
  match tf with
  | .kstack =>
    .ret { k1 with
      ktf := { k1.ktf with tf_regs := { k1.ktf.tf_regs with reg_eax := to_u32 ret } } }
  | .env_tf =>
    match cur with
    | none => .undefined k1
    | some c =>
      .ret { k1 with
        envs := Function.update k1.envs c
          { k1.envs c with
            env_tf := { (k1.envs c).env_tf with
              tf_regs := { (k1.envs c).env_tf.tf_regs with reg_eax := to_u32 ret } } } }

/-- The dispatch step of kern/trap.c.  Console output is left out; the read of
`curenv->env_id` for the message of the fatal path needs a current process. -/
def trap_dispatch (C : Consts) (X : TrapConsts) (syscall : SyscallFn) (k : Kernel)
    (tf : TfPtr) : Outcome :=
  match read_tf k tf with
  | none => .undefined k
  | some f =>
    if f.tf_trapno = X.T_PGFLT then page_fault_handler C k tf
    else if f.tf_trapno = X.T_SYSCALL then
      match syscall k f.tf_regs.reg_eax f.tf_regs.reg_edx f.tf_regs.reg_ecx
          f.tf_regs.reg_ebx f.tf_regs.reg_edi f.tf_regs.reg_esi with
      | .returned k1 ret => store_eax k1 k.curenv tf ret
      | .noreturn o => o
    else if f.tf_trapno = X.IRQ_OFFSET then sched_yield C k
    else if f.tf_trapno = X.IRQ_OFFSET + X.IRQ_SPURIOUS then .ret k
    else
      match k.curenv with
      | none => .undefined k
      | some cur =>
        if f.tf_cs = X.GD_KT then .panic k
        else env_destroy C k cur

/-- The end of `trap`, reached when the dispatch step returns: resume the current process
if there is one and it is RUNNABLE, otherwise call the scheduler.  A dispatch step that
transferred control elsewhere never gets here. -/
def trap_resume (C : Consts) (o : Outcome) : Outcome :=
  match o with
  | .ret k2 =>
    match k2.curenv with
    | some cur =>
      if (k2.envs cur).env_status = ENV_RUNNABLE then env_run k2 cur else sched_yield C k2
    | none => sched_yield C k2
  | o => o

/-- The trap entry point of kern/trap.c: on entry `tf` points at the frame on the kernel
stack; for a trap from user mode the frame is copied to `curenv->env_tf` and `tf` is
pointed there. -/
def trap (C : Consts) (X : TrapConsts) (syscall : SyscallFn) (k : Kernel) : Outcome :=
  if k.ktf.tf_cs &&& 3 = 3 then
    match k.curenv with
    | none => .panic k
    | some cur =>
      trap_resume C (trap_dispatch C X syscall
        { k with envs := Function.update k.envs cur { k.envs cur with env_tf := k.ktf } }
        .env_tf)
  else trap_resume C (trap_dispatch C X syscall k .kstack)

/-- The code segment selectors a trap frame can carry.  Every gate that `idt_init` sets
up enters the kernel through GD_KT and the kernel runs under no other code selector, so
a trap taken at kernel privilege has tf_cs = GD_KT, whose privilege bits are not 3; a
trap taken in user mode has privilege bits 3 in tf_cs. -/
def TrapConsts.HardwareCs (X : TrapConsts) (cs : Nat) : Prop :=
  X.GD_KT &&& 3 ≠ 3 ∧ (cs = X.GD_KT ∨ cs &&& 3 = 3)

instance (X : TrapConsts) (cs : Nat) : Decidable (X.HardwareCs cs) := by
  unfold TrapConsts.HardwareCs; infer_instance

/-! ## lib/pgfault.c -/

/-- The system calls that the user library issues, with their arguments, and the page
copies it performs with `memmove`, which act on the same address space and are recorded
in the same sequence. -/
inductive Syscall
  | sys_page_alloc (envid va perm : Nat)
  | sys_env_set_pgfault_upcall (envid upcall : Nat)
  | sys_page_map (srcenv srcva dstenv dstva perm : Nat)
  | sys_page_unmap (envid va : Nat)
  | sys_exofork
  | sys_env_set_status (envid : Nat) (status : EnvStatus)
  | sys_getenvid
  | memmove (dst src len : Nat)
  deriving DecidableEq, Repr

/-- The state of the user library: the global `_pgfault_handler` (0 is the NULL pointer)
and the system calls issued so far, oldest first. -/
structure UserLib where
  _pgfault_handler : Nat
  calls : List Syscall
  deriving DecidableEq, Repr

/-- How a library call ends: it returns, or it panics. -/
inductive LibResult
  | ok (s : UserLib)
  | panic (s : UserLib)
  deriving DecidableEq, Repr

/-- The kernel as the library sees it: the result word of a system call, given the calls
issued before it. -/
abbrev SysReply := List Syscall → Syscall → Int

/-- Registration of the user page-fault handler, `set_pgfault_handler` of lib/pgfault.c.
`upcall` is the address of the assembly routine `_pgfault_upcall`. -/
def set_pgfault_handler (C : Consts) (upcall : Nat) (reply : SysReply) (s : UserLib)
    (handler : Nat) : LibResult :=
  if s._pgfault_handler = 0 then
    let c1 := Syscall.sys_page_alloc 0 (sub32 C.UXSTACKTOP C.PGSIZE)
      (C.PTE_P ||| C.PTE_U ||| C.PTE_W)
    let s1 : UserLib := { s with calls := s.calls ++ [c1] }
    if reply s.calls c1 ≠ 0 then .panic s1
    else
      let c2 := Syscall.sys_env_set_pgfault_upcall 0 upcall
      let s2 : UserLib := { s1 with calls := s1.calls ++ [c2] }
      if reply s1.calls c2 ≠ 0 then .panic s2
      else .ok { s2 with _pgfault_handler := handler }
  else .ok { s with _pgfault_handler := handler }

/-- A sequence of calls of `set_pgfault_handler`, one per handler of the list; a panic ends
the program. -/
def set_pgfault_handler_seq (C : Consts) (upcall : Nat) (reply : SysReply) :
    UserLib → List Nat → LibResult
  | s, [] => .ok s
  | s, h :: hs =>
    match set_pgfault_handler C upcall reply s h with
    | .ok s1 => set_pgfault_handler_seq C upcall reply s1 hs
    | .panic s1 => .panic s1

/-! ## lib/fork.c -/

/-- The copy-on-write marker of lib/fork.c, one of the bits left to user processes. -/
def PTE_COW : Nat := 0x800

/-- Constants and addresses that lib/fork.c uses but that are declared elsewhere (headers,
the linker, the stack of the running program).  They are parameters of the model. -/
structure UserConsts where
  /-- Bit of a page-fault error code: the access was a write. -/
  FEC_WR : Nat
  /-- Scratch address at which pgfault maps the fresh page. -/
  PFTEMP : Nat
  /-- Scratch address at which duppage2 maps the page of the child. -/
  UTEMP : Nat
  /-- Number of entries of a page directory. -/
  NPDENTRIES : Nat
  /-- Number of entries of a page table. -/
  NPTENTRIES : Nat
  /-- Address of the linker symbol end. -/
  end_addr : Nat
  /-- Address of the local variable child_id of fork, on the user stack. -/
  child_id_addr : Nat
  /-- Address of the assembly routine _pgfault_upcall. -/
  upcall_addr : Nat
  /-- Address of the function pgfault, the handler that fork registers. -/
  pgfault_addr : Nat

/-- The kernel as lib/fork.c sees it, each view given the calls issued so far: the result
word of a system call, the read-only page table `vpt`, the read-only page directory
`vpd`, and the field `env->env_pgfault_upcall` of the read-only process table. -/
structure UserEnv where
  reply : SysReply
  vpt : List Syscall → Nat → Nat
  vpd : List Syscall → Nat → Nat
  env_pgfault_upcall : List Syscall → Nat

/-- How a library function with an `int` result ends: it returns a value, or it panics. -/
inductive LibValue
  | ok (v : Int) (s : UserLib)
  | panic (s : UserLib)
  deriving DecidableEq, Repr

/-- The library state at the end. -/
def LibResult.state : LibResult → UserLib
  | .ok s => s
  | .panic s => s

/-- The library state at the end. -/
def LibValue.state : LibValue → UserLib
  | .ok _ s => s
  | .panic s => s

/-- The function ended in a panic. -/
def LibResult.isPanic : LibResult → Bool
  | .ok _ => false
  | .panic _ => true

/-- The function ended in a panic. -/
def LibValue.isPanic : LibValue → Bool
  | .ok _ _ => false
  | .panic _ => true

/-- The macro ROUNDDOWN(a, n). -/
def ROUNDDOWN (a n : Nat) : Nat := a - a % n

/-- The macro VPN(la): the page number of a linear address. -/
def VPN (C : Consts) (la : Nat) : Nat := la / C.PGSIZE

/-- The macro VPD(la): the page directory index of a linear address. -/
def VPD (C : Consts) (U : UserConsts) (la : Nat) : Nat :=
  la / (C.PGSIZE * U.NPTENTRIES) % U.NPDENTRIES

/-- One more call recorded in the library state. -/
def UserLib.issue (s : UserLib) (c : Syscall) : UserLib :=
  { s with calls := s.calls ++ [c] }

/-- The custom page fault handler `pgfault` of lib/fork.c. -/
def pgfault (C : Consts) (U : UserConsts) (K : UserEnv) (s : UserLib) (utf : UTrapframe) :
    LibResult :=
  let addr := utf.utf_fault_va
  let err := utf.utf_err
  if err &&& U.FEC_WR = 0 then .panic s
  else
    let pn := VPN C addr
    if K.vpt s.calls pn &&& PTE_COW = 0 then .panic s
    else
      let c1 := Syscall.sys_page_alloc 0 U.PFTEMP (C.PTE_U ||| C.PTE_P ||| C.PTE_W)
      if K.reply s.calls c1 ≠ 0 then .panic (s.issue c1)
      else
        let s1 := s.issue c1
        let s2 := s1.issue (Syscall.memmove U.PFTEMP (ROUNDDOWN addr C.PGSIZE) C.PGSIZE)
        let c3 := Syscall.sys_page_map 0 U.PFTEMP 0 (ROUNDDOWN addr C.PGSIZE)
          (C.PTE_U ||| C.PTE_P ||| C.PTE_W)
        if K.reply s2.calls c3 ≠ 0 then .panic (s2.issue c3)
        else
          let s3 := s2.issue c3
          let c4 := Syscall.sys_page_unmap 0 U.PFTEMP
          if K.reply s3.calls c4 ≠ 0 then .panic (s3.issue c4)
          else .ok (s3.issue c4)

/-- The function `duppage` of lib/fork.c; `pn * PGSIZE` is an unsigned 32-bit product. -/
def duppage (C : Consts) (K : UserEnv) (s : UserLib) (envid pn : Nat) : LibValue :=
  let va := (pn * C.PGSIZE) % 2 ^ 32
  let pte := K.vpt s.calls pn
  if pte &&& C.PTE_W ≠ 0 ∨ pte &&& PTE_COW ≠ 0 then
    let c1 := Syscall.sys_page_map 0 va envid va (C.PTE_P ||| C.PTE_U ||| PTE_COW)
    if K.reply s.calls c1 ≠ 0 then .panic (s.issue c1)
    else
      let s1 := s.issue c1
      let c2 := Syscall.sys_page_map 0 va 0 va (C.PTE_P ||| C.PTE_U ||| PTE_COW)
      if K.reply s1.calls c2 ≠ 0 then .panic (s1.issue c2)
      else .ok 0 (s1.issue c2)
  else
    let c1 := Syscall.sys_page_map 0 va envid va (C.PTE_U ||| C.PTE_P)
    if K.reply s.calls c1 ≠ 0 then .panic (s.issue c1)
    else .ok 0 (s.issue c1)

/-- The function `duppage2` of lib/fork.c. -/
def duppage2 (C : Consts) (U : UserConsts) (K : UserEnv) (s : UserLib) (dstenv addr : Nat) :
    LibResult :=
  let c1 := Syscall.sys_page_alloc dstenv addr (C.PTE_P ||| C.PTE_U ||| C.PTE_W)
  if K.reply s.calls c1 < 0 then .panic (s.issue c1)
  else
    let s1 := s.issue c1
    let c2 := Syscall.sys_page_map dstenv addr 0 U.UTEMP (C.PTE_P ||| C.PTE_U ||| C.PTE_W)
    if K.reply s1.calls c2 < 0 then .panic (s1.issue c2)
    else
      let s2 := s1.issue c2
      let s3 := s2.issue (Syscall.memmove U.UTEMP addr C.PGSIZE)
      let c4 := Syscall.sys_page_unmap 0 U.UTEMP
      if K.reply s3.calls c4 < 0 then .panic (s3.issue c4)
      else .ok (s3.issue c4)

/-- The inner loop of `fork` over the entries of one page table: `pti` is the loop
variable and the next argument the number of iterations that remain. -/
def fork_pt_loop (C : Consts) (K : UserEnv) (child_id : Nat) :
    Nat → Nat → UserLib → LibResult
  | _, 0, s => .ok s
  | pti, n + 1, s =>
    if K.vpt s.calls pti &&& C.PTE_P = 0 then fork_pt_loop C K child_id (pti + 1) n s
    else
      match duppage C K s child_id pti with
      | .panic s1 => .panic s1
      | .ok r s1 =>
        if r ≠ 0 then .panic s1
        else fork_pt_loop C K child_id (pti + 1) n s1

/-- The outer loop of `fork` over the entries of the page directory: `pdi` is the loop
variable and the next argument the number of iterations that remain. -/
def fork_pd_loop (C : Consts) (U : UserConsts) (K : UserEnv) (child_id : Nat) :
    Nat → Nat → UserLib → LibResult
  | _, 0, s => .ok s
  | pdi, n + 1, s =>
    if K.vpd s.calls pdi &&& C.PTE_P = 0 then fork_pd_loop C U K child_id (pdi + 1) n s
    else
      match fork_pt_loop C K child_id (pdi * U.NPDENTRIES) U.NPTENTRIES s with
      | .panic s1 => .panic s1
      | .ok s1 => fork_pd_loop C U K child_id (pdi + 1) n s1

/-- The function `fork` of lib/fork.c.  The result of `sys_exofork` is 0 when the same
code runs in the child; the assignment to the global `env` there has no part in what
follows and is represented by its call of `sys_getenvid` only. -/
def fork (C : Consts) (U : UserConsts) (K : UserEnv) (s : UserLib) : LibValue :=
  match set_pgfault_handler C U.upcall_addr K.reply s U.pgfault_addr with
  | .panic s0 => .panic s0
  | .ok s0 =>
    let child_id := K.reply s0.calls Syscall.sys_exofork
    let s1 := s0.issue Syscall.sys_exofork
    if child_id < 0 then .panic s1
    else if child_id = 0 then .ok 0 (s1.issue Syscall.sys_getenvid)
    else
      match fork_pd_loop C U K child_id.toNat (VPD C U 0)
          (VPD C U U.end_addr + 1 - VPD C U 0) s1 with
      | .panic s2 => .panic s2
      | .ok s2 =>
        match duppage2 C U K s2 child_id.toNat (ROUNDDOWN U.child_id_addr C.PGSIZE) with
        | .panic s3 => .panic s3
        | .ok s3 =>
          let c4 := Syscall.sys_page_alloc child_id.toNat (sub32 C.UXSTACKTOP C.PGSIZE)
            (C.PTE_P ||| C.PTE_U ||| C.PTE_W)
          if K.reply s3.calls c4 ≠ 0 then .panic (s3.issue c4)
          else
            let s4 := s3.issue c4
            let c5 := Syscall.sys_env_set_pgfault_upcall child_id.toNat
              (K.env_pgfault_upcall s4.calls)
            if K.reply s4.calls c5 ≠ 0 then .panic (s4.issue c5)
            else
              let s5 := s4.issue c5
              let c6 := Syscall.sys_env_set_status child_id.toNat ENV_RUNNABLE
              if K.reply s5.calls c6 < 0 then .panic (s5.issue c6)
              else .ok child_id (s5.issue c6)

/-! ## The page operations of the kernel, as lib/fork.c relies on them -/

/-- Modelled from the spec: the address spaces that the privileged memory operations act
on (the kernel side of these system calls is not among the sources).  A page table entry
is a word: physical page number times PGSIZE plus the permission bits. -/
structure AddrSpaces where
  /-- Identifier of the calling process; the identifier 0 in a call stands for it. -/
  self : Nat
  /-- The mapping of each process: page number to page table entry. -/
  pt : Nat → Nat → Option Nat
  /-- The bytes of each physical page. -/
  phys : Nat → Nat → Nat
  /-- Physical pages from this number on are not in use. -/
  next_free : Nat

/-- The process an identifier denotes. -/
def AddrSpaces.target (m : AddrSpaces) (envid : Nat) : Nat :=
  if envid = 0 then m.self else envid

/-- A new mapping in the table of one process. -/
def AddrSpaces.set_pte (m : AddrSpaces) (e vpn : Nat) (w : Option Nat) : AddrSpaces :=
  { m with pt := Function.update m.pt e (Function.update (m.pt e) vpn w) }

/-- The byte the calling process reads at a virtual address. -/
def AddrSpaces.read (C : Consts) (m : AddrSpaces) (va : Nat) : Nat :=
  match m.pt m.self (va / C.PGSIZE) with
  | some w => m.phys (w / C.PGSIZE) (va % C.PGSIZE)
  | none => 0

/-- A byte written by the calling process at a virtual address; the write takes effect
when the page is mapped with PTE_W. -/
def AddrSpaces.write (C : Consts) (m : AddrSpaces) (va b : Nat) : AddrSpaces :=
  match m.pt m.self (va / C.PGSIZE) with
  | some w =>
    if (w % C.PGSIZE) &&& C.PTE_W ≠ 0 then
      { m with
        phys := Function.update m.phys (w / C.PGSIZE)
          (Function.update (m.phys (w / C.PGSIZE)) (va % C.PGSIZE) b) }
    else m
  | none => m

/-- Modelled from the spec: `memmove` copies `len` bytes from `src` to `dst` in the
address space of the caller; every byte written is the byte that was at its source
before the copy began. -/
def AddrSpaces.memmove (C : Consts) (m : AddrSpaces) (dst src len : Nat) : AddrSpaces :=
  (List.range len).foldl (fun acc i => acc.write C (dst + i) (m.read C (src + i))) m

/-- Modelled from the spec: the privileged memory operations.  `sys_page_alloc` maps a
fresh zeroed physical page at the address with the given permissions; `sys_page_map` maps
the physical page found at the source address at the destination address with the given
permissions; `sys_page_unmap` removes a mapping; a mapping made at an address that is
already mapped supersedes the old one.  An unaligned address, permission bits outside the
low bits of an entry, or a source that is not mapped give the negative result -3 and no
effect.  The other calls do not act on the address spaces. -/
def AddrSpaces.step (C : Consts) (m : AddrSpaces) : Syscall → AddrSpaces × Int
  | .sys_page_alloc envid va perm =>
    if va % C.PGSIZE ≠ 0 ∨ C.PGSIZE ≤ perm then (m, -3)
    else
      let m1 := m.set_pte (m.target envid) (va / C.PGSIZE)
        (some (m.next_free * C.PGSIZE + perm))
      ({ m1 with
          phys := Function.update m.phys m.next_free (fun _ => 0)
          next_free := m.next_free + 1 }, 0)
  | .sys_page_map srcenv srcva dstenv dstva perm =>
    if srcva % C.PGSIZE ≠ 0 ∨ dstva % C.PGSIZE ≠ 0 ∨ C.PGSIZE ≤ perm then (m, -3)
    else
      match m.pt (m.target srcenv) (srcva / C.PGSIZE) with
      | none => (m, -3)
      | some w =>
        (m.set_pte (m.target dstenv) (dstva / C.PGSIZE)
          (some (w / C.PGSIZE * C.PGSIZE + perm)), 0)
  | .sys_page_unmap envid va => (m.set_pte (m.target envid) (va / C.PGSIZE) none, 0)
  | .memmove dst src len => (m.memmove C dst src len, 0)
  | _ => (m, 0)

/-- The address spaces after a sequence of calls. -/
def AddrSpaces.run (C : Consts) (m : AddrSpaces) (cs : List Syscall) : AddrSpaces :=
  cs.foldl (fun acc c => (acc.step C c).1) m

/-- The result words this kernel gives, starting from the address spaces `m`. -/
def AddrSpaces.reply (C : Consts) (m : AddrSpaces) : SysReply :=
  fun cs c => ((m.run C cs).step C c).2

/-- The read-only page table of the caller: the entry of a page, 0 when it is not
mapped. -/
def AddrSpaces.vpt (C : Consts) (m : AddrSpaces) : List Syscall → Nat → Nat :=
  fun cs pn => ((m.run C cs).pt (m.run C cs).self pn).getD 0

/-- The permission word of a mapping call does not carry PTE_COW together with PTE_W. -/
def Syscall.permOk (C : Consts) : Syscall → Prop
  | .sys_page_alloc _ _ perm => ¬ (perm &&& PTE_COW ≠ 0 ∧ perm &&& C.PTE_W ≠ 0)
  | .sys_page_map _ _ _ _ perm => ¬ (perm &&& PTE_COW ≠ 0 ∧ perm &&& C.PTE_W ≠ 0)
  | _ => True

/-- The sharing invariant: no mapping of any process carries PTE_COW together with
PTE_W. -/
def CowInv (C : Consts) (m : AddrSpaces) : Prop :=
  ∀ e vpn w, m.pt e vpn = some w →
    ¬ ((w % C.PGSIZE) &&& PTE_COW ≠ 0 ∧ (w % C.PGSIZE) &&& C.PTE_W ≠ 0)

/-- The x86 values of the permission bits and the 4096-byte page. -/
def Consts.X86 (C : Consts) : Prop :=
  C.PTE_P = 1 ∧ C.PTE_W = 2 ∧ C.PTE_U = 4 ∧ C.PGSIZE = 4096

instance (C : Consts) : Decidable C.X86 := by
  unfold Consts.X86; infer_instance

/-- The call is `sys_env_set_status`. -/
def Syscall.isSetStatus : Syscall → Bool
  | .sys_env_set_status _ _ => true
  | _ => false

/-- The calls whose result word the library checks: every system call except
`sys_getenvid`; `memmove` has no result word. -/
def Syscall.checked : Syscall → Bool
  | .memmove _ _ _ => false
  | .sys_getenvid => false
  | _ => true

/-- Every checked call of the sequence `cs`, issued after the calls `pre`, returned a
non-negative result: none of them reported a failure. -/
def AllOk (K : UserEnv) : List Syscall → List Syscall → Prop
  | _, [] => True
  | pre, c :: cs => (c.checked = true → 0 ≤ K.reply pre c) ∧ AllOk K (pre ++ [c]) cs

/-! ## Concrete data for the worked instances -/

/-- A concrete instance of the constants: 1024 process slots, exception stack top
0xeec00000, 4096-byte pages, a 52-byte fault-context record stored field by field in
little-endian words, and the x86 permission bits. -/
def jos : Consts :=
  { NENV := 1024
    UXSTACKTOP := 0xeec00000
    PGSIZE := 4096
    sizeof_UTrapframe := 52
    utf_byte := fun utf i =>
      let words := [utf.utf_fault_va, utf.utf_err, utf.utf_regs.reg_edi, utf.utf_regs.reg_esi,
        utf.utf_regs.reg_ebp, utf.utf_regs.reg_oesp, utf.utf_regs.reg_ebx,
        utf.utf_regs.reg_edx, utf.utf_regs.reg_ecx, utf.utf_regs.reg_eax, utf.utf_eip,
        utf.utf_eflags, utf.utf_esp]
      (words.getD (i / 4) 0 / 2 ^ (8 * (i % 4))) % 256
    PTE_P := 1
    PTE_W := 2
    PTE_U := 4 }

/-- The same layout with a process table of eight slots. -/
def smallConsts : Consts := { jos with NENV := 8 }

/-- A process slot with the given status and upcall, everything else zero. -/
def mkEnv (st : EnvStatus) (upcall : Nat) : Env :=
  { env_id := 0
    env_status := st
    env_tf :=
      { tf_regs := ⟨0, 0, 0, 0, 0, 0, 0, 0⟩
        tf_es := 0, tf_ds := 0, tf_trapno := 14, tf_err := 7, tf_eip := 0x800020
        tf_cs := 0x1b, tf_eflags := 0, tf_esp := 0xeebfdfc0, tf_ss := 0x23 }
    env_pgfault_upcall := upcall }

/-- A process table whose slots 2 and 5 are RUNNABLE and whose idle slot 0 is RUNNABLE;
the current process is the one in slot 2, it has an upcall registered and took a page
fault in user mode with the given stack pointer. -/
def demoAt (esp : Nat) : Kernel :=
  { envs := fun i =>
      if i = 0 then mkEnv ENV_RUNNABLE 0
      else if i = 2 then
        { mkEnv ENV_RUNNABLE 0x800100 with
          env_tf := { (mkEnv ENV_RUNNABLE 0x800100).env_tf with tf_esp := esp } }
      else if i = 5 then mkEnv ENV_RUNNABLE 0
      else mkEnv ENV_FREE 0
    curenv := some 2
    last_env_idx := 2
    ktf := { (mkEnv ENV_FREE 0).env_tf with tf_cs := 0x08 }
    cr2 := 0x00801000
    mem := fun _ => 0
    user_mem_check := fun _ _ _ => true }

/-- The fault was taken on the normal user stack. -/
def demoKernel : Kernel := demoAt 0xeebfdfc0

/-- The fault was taken while the process ran on its exception stack. -/
def demoRecursive : Kernel := demoAt 0xeebfffcc

/-- The fault was taken with the stack pointer ten bytes above the bottom of the
exception stack page. -/
def demoOverflow : Kernel := demoAt 0xeebff00a

/-- The current process is the one in slot 5, which has no upcall. -/
def demoNoUpcall : Kernel := { demoKernel with curenv := some 5 }

/-- The trap numbers and the selector of the JOS headers. -/
def josTrap : TrapConsts :=
  { T_PGFLT := 14, T_SYSCALL := 48, IRQ_OFFSET := 32, IRQ_SPURIOUS := 7, GD_KT := 0x08 }

/-- A dispatcher that returns the error word -3 and leaves the kernel state alone. -/
def demoSyscall : SyscallFn := fun k _ _ _ _ _ _ => .returned k (-3)

/-- A general protection fault (trap 13) taken in kernel mode: the frame on the kernel
stack carries the kernel code selector 0x08. -/
def demoKernelFault : Kernel :=
  { demoKernel with ktf := { demoKernel.ktf with tf_cs := 0x08, tf_trapno := 13 } }

/-- A general protection fault taken in user mode (selector 0x1b) by the process of
slot 2. -/
def demoUserFault : Kernel :=
  { demoKernel with ktf := { demoKernel.ktf with tf_cs := 0x1b, tf_trapno := 13 } }

/-- A system call (trap 48) of the process of slot 2, with the frame already copied to
its saved context. -/
def demoSyscallTrap : Kernel :=
  { demoKernel with
    envs := Function.update demoKernel.envs 2
      { demoKernel.envs 2 with
        env_tf := { (demoKernel.envs 2).env_tf with
          tf_trapno := 48
          tf_regs := ⟨4, 5, 0, 0, 3, 1, 2, 9⟩ } } }

/-- A call that is neither `sys_env_set_status` nor a mapping call with PTE_COW and PTE_W
together. -/
def Syscall.plain (C : Consts) (c : Syscall) : Prop :=
  c.permOk C ∧ c.isSetStatus = false

/-- From the library state `s` the calls `new` were issued and led to the state `t`; each
of them is plain, and when `good` holds none of the checked ones reported a failure. -/
def Issues (C : Consts) (K : UserEnv) (s t : UserLib) (good : Prop) : Prop :=
  ∃ new, t.calls = s.calls ++ new ∧ (∀ c ∈ new, c.plain C) ∧ (good → AllOk K s.calls new)

/-- Addresses of a small user program for the worked instances of lib/fork.c. -/
def demoUser : UserConsts :=
  { FEC_WR := 2
    PFTEMP := 0x7ff000
    UTEMP := 0x400000
    NPDENTRIES := 1024
    NPTENTRIES := 1024
    end_addr := 0x802000
    child_id_addr := 0xeebfdf00
    upcall_addr := 0x800200
    pgfault_addr := 0x800300 }

/-- Address spaces for the worked instances.  The caller is process 0x1001.  Its page
0x800 is mapped copy-on-write to physical page 5, its page 0x801 is mapped read-only with
the software bit 0x400 to physical page 6, and its scratch page at PFTEMP is mapped
copy-on-write to physical page 7.  Process 0x1002 has no mappings. -/
def demoMem : AddrSpaces :=
  { self := 0x1001
    pt := fun e vpn =>
      if e = 0x1001 ∧ vpn = 0x800 then some (5 * 4096 + 0x805)
      else if e = 0x1001 ∧ vpn = 0x801 then some (6 * 4096 + 0x405)
      else if e = 0x1001 ∧ vpn = 0x7ff then some (7 * 4096 + 0x805)
      else none
    phys := fun p off => (p + off) % 256
    next_free := 100 }

/-- The kernel of the worked instances: replies and page table of `demoMem`, every page
directory entry present, the upcall of the caller registered. -/
def demoEnv : UserEnv :=
  { reply := demoMem.reply jos
    vpt := demoMem.vpt jos
    vpd := fun _ _ => 7
    env_pgfault_upcall := fun _ => 0x800200 }

/-- A write fault at address 0x800010, in the copy-on-write page 0x800. -/
def demoWriteFault : UTrapframe :=
  { utf_fault_va := 0x800010, utf_err := 7, utf_regs := ⟨0, 0, 0, 0, 0, 0, 0, 0⟩
    utf_eip := 0x800020, utf_eflags := 0, utf_esp := 0xeebfdfc0 }

/-- A write fault at address 0x7ff004, in the scratch page at PFTEMP. -/
def demoScratchFault : UTrapframe :=
  { demoWriteFault with utf_fault_va := 0x7ff004 }

/-- A program with a small page directory for the worked instance of `fork`: four
directory entries, two entries per page table, the symbol end in the second table. -/
def tinyUser : UserConsts :=
  { demoUser with NPDENTRIES := 4, NPTENTRIES := 2, end_addr := 0x2000 }

/-- A kernel that accepts every call and creates the child 0x1002; page 1 of the caller
is mapped writable, every other page is not mapped. -/
def okEnv : UserEnv :=
  { reply := fun _ c =>
      match c with
      | .sys_exofork => 0x1002
      | _ => 0
    vpt := fun _ pn => if pn = 1 then 0x1007 else 0
    vpd := fun _ pdi => if pdi = 0 then 7 else 0
    env_pgfault_upcall := fun _ => 0x800200 }

/-! ## Theorems: the scheduler -/

theorem slot_reached (N c idx : Nat) (hidx : idx < N) :
    ∃ j, j < N ∧ (c + j + 1) % N = idx := by
  have hN : 0 < N := by omega
  refine ⟨(idx + (N - 1) * (c + 1)) % N, Nat.mod_lt _ hN, ?_⟩
  have e1 : c + (idx + (N - 1) * (c + 1)) % N + 1
      = (c + 1) + (idx + (N - 1) * (c + 1)) % N := by omega
  have e2 : (c + 1) + (idx + (N - 1) * (c + 1)) = idx + N * (c + 1) := by
    obtain ⟨m, rfl⟩ : ∃ m, N = m + 1 := ⟨N - 1, by omega⟩
    simp only [Nat.add_sub_cancel]
    ring
  rw [e1, Nat.add_mod_mod, e2, Nat.add_mul_mod_self_left, Nat.mod_eq_of_lt hidx]

theorem mod_cycle_full (N c j : Nat) (hc : c < N) (hj : j < N)
    (h : (c + j + 1) % N = c) : j + 1 = N := by
  by_contra hne
  by_cases hlt : c + j + 1 < N
  · rw [Nat.mod_eq_of_lt hlt] at h; omega
  · rw [Nat.mod_eq_sub_mod (by omega), Nat.mod_eq_of_lt (by omega)] at h; omega

theorem sched_scan_some (N : Nat) (envs : Nat → Env) (c : Nat) :
    ∀ n i idx, sched_scan N envs c i n = some idx →
      ∃ j, i ≤ j ∧ j < i + n ∧ idx = (c + j + 1) % N ∧ Candidate envs idx ∧
        ∀ j', i ≤ j' → j' < j → ¬ Candidate envs ((c + j' + 1) % N) := by
  intro n
  induction n with
  | zero => intro i idx h; simp [sched_scan] at h
  | succ n ih =>
    intro i idx h
    simp only [sched_scan] at h
    by_cases h0 : (c + i + 1) % N = 0
    · rw [if_pos h0] at h
      obtain ⟨j, hij, hjn, hidx, hcand, hmin⟩ := ih (i + 1) idx h
      refine ⟨j, by omega, by omega, hidx, hcand, ?_⟩
      intro j' h1 h2
      by_cases hj' : j' = i
      · subst hj'; intro hc; exact hc.1 h0
      · exact hmin j' (by omega) h2
    · rw [if_neg h0] at h
      by_cases h1 : (envs ((c + i + 1) % N)).env_status ≠ ENV_RUNNABLE
      · rw [if_pos h1] at h
        obtain ⟨j, hij, hjn, hidx, hcand, hmin⟩ := ih (i + 1) idx h
        refine ⟨j, by omega, by omega, hidx, hcand, ?_⟩
        intro j' h2 h3
        by_cases hj' : j' = i
        · subst hj'; intro hc; exact h1 hc.2
        · exact hmin j' (by omega) h3
      · rw [if_neg h1] at h
        have hidx : (c + i + 1) % N = idx := by simpa using h
        refine ⟨i, le_refl _, by omega, hidx.symm, ?_, ?_⟩
        · rw [← hidx]; exact ⟨h0, not_not.mp h1⟩
        · intro j' h2 h3; omega

theorem sched_scan_none (N : Nat) (envs : Nat → Env) (c : Nat) :
    ∀ n i, sched_scan N envs c i n = none →
      ∀ j, i ≤ j → j < i + n → ¬ Candidate envs ((c + j + 1) % N) := by
  intro n
  induction n with
  | zero => intro i _ j h1 h2; omega
  | succ n ih =>
    intro i h j h1 h2
    simp only [sched_scan] at h
    by_cases h0 : (c + i + 1) % N = 0
    · rw [if_pos h0] at h
      by_cases hj : j = i
      · subst hj; intro hc; exact hc.1 h0
      · exact ih (i + 1) h j (by omega) (by omega)
    · rw [if_neg h0] at h
      by_cases hr : (envs ((c + i + 1) % N)).env_status ≠ ENV_RUNNABLE
      · rw [if_pos hr] at h
        by_cases hj : j = i
        · subst hj; intro hc; exact hr hc.2
        · exact ih (i + 1) h j (by omega) (by omega)
      · rw [if_neg hr] at h; simp at h

/-- When the loop finds nothing, no slot below NENV is a candidate. -/
theorem sched_scan_none_all (N : Nat) (envs : Nat → Env) (c : Nat)
    (h : sched_scan N envs c 0 N = none) (idx : Nat) (hidx : idx < N) :
    ¬ Candidate envs idx := by
  obtain ⟨j, hj, he⟩ := slot_reached N c idx hidx
  have := sched_scan_none N envs c N 0 h j (Nat.zero_le _) (by omega)
  rwa [he] at this

/-- The slot the loop finds is a candidate below NENV. -/
theorem sched_scan_some_lt (N : Nat) (envs : Nat → Env) (c idx : Nat)
    (h : sched_scan N envs c 0 N = some idx) : idx < N ∧ Candidate envs idx := by
  obtain ⟨j, _, hj, hidx, hcand, _⟩ := sched_scan_some N envs c N 0 idx h
  exact ⟨by rw [hidx]; exact Nat.mod_lt _ (by omega), hcand⟩

/-- With a candidate in the table, the loop finds one. -/
theorem sched_scan_isSome (N : Nat) (envs : Nat → Env) (c : Nat)
    (h : ∃ idx, idx < N ∧ Candidate envs idx) :
    ∃ idx, sched_scan N envs c 0 N = some idx := by
  cases hs : sched_scan N envs c 0 N with
  | some idx => exact ⟨idx, rfl⟩
  | none =>
    obtain ⟨idx, hlt, hc⟩ := h
    exact absurd hc (sched_scan_none_all N envs c hs idx hlt)

theorem sched_yield_of_some (C : Consts) (k : Kernel) (idx : Nat)
    (h : sched_scan C.NENV k.envs k.last_env_idx 0 C.NENV = some idx) :
    sched_yield C k = .env_run { k with last_env_idx := idx, curenv := some idx } idx := by
  simp [sched_yield, h, env_run]

theorem sched_yield_of_none (C : Consts) (k : Kernel)
    (h : sched_scan C.NENV k.envs k.last_env_idx 0 C.NENV = none) :
    sched_yield C k =
      if (k.envs 0).env_status = ENV_RUNNABLE then .env_run { k with curenv := some 0 } 0
      else .monitor k := by
  simp [sched_yield, h, env_run]

/-- C1: whenever some slot other than slot 0 is RUNNABLE, `sched_yield` hands control to a
slot other than the idle slot 0, whatever the value of the cursor; the slot it runs is a
RUNNABLE slot of the table. -/
theorem sched_yield_never_idle (C : Consts) (k : Kernel)
    (h : ∃ idx, idx ≠ 0 ∧ idx < C.NENV ∧ (k.envs idx).env_status = ENV_RUNNABLE) :
    ∃ idx, (sched_yield C k).ran = some idx ∧ idx ≠ 0 ∧ idx < C.NENV ∧
      (k.envs idx).env_status = ENV_RUNNABLE := by
  obtain ⟨i0, h0, hlt, hr⟩ := h
  obtain ⟨idx, hs⟩ := sched_scan_isSome C.NENV k.envs k.last_env_idx ⟨i0, hlt, h0, hr⟩
  obtain ⟨hl, hc⟩ := sched_scan_some_lt _ _ _ _ hs
  exact ⟨idx, by rw [sched_yield_of_some C k idx hs]; rfl, hc.1, hl, hc.2⟩

theorem sched_yield_never_idle_witness :
    ∃ idx, (sched_yield jos demoKernel).ran = some idx ∧ idx ≠ 0 ∧ idx < jos.NENV ∧
      (demoKernel.envs idx).env_status = ENV_RUNNABLE :=
  sched_yield_never_idle jos demoKernel ⟨5, by decide, by decide, by decide⟩

/-- C2: with the cursor at c and some non-idle slot RUNNABLE, `sched_yield` runs the slot
(c + j) mod NENV for the smallest j in 1..NENV whose slot is non-zero and RUNNABLE; and it
runs slot c itself exactly when c is RUNNABLE, non-idle and no other non-idle slot is
RUNNABLE. -/
theorem sched_yield_first_candidate (C : Consts) (k : Kernel)
    (hc : k.last_env_idx < C.NENV)
    (h : ∃ idx, idx ≠ 0 ∧ idx < C.NENV ∧ (k.envs idx).env_status = ENV_RUNNABLE) :
    (∃ j, 1 ≤ j ∧ j ≤ C.NENV ∧
        Candidate k.envs ((k.last_env_idx + j) % C.NENV) ∧
        (∀ j', 1 ≤ j' → j' < j → ¬ Candidate k.envs ((k.last_env_idx + j') % C.NENV)) ∧
        (sched_yield C k).ran = some ((k.last_env_idx + j) % C.NENV)) ∧
    ((sched_yield C k).ran = some k.last_env_idx ↔
        Candidate k.envs k.last_env_idx ∧
          ∀ i, i < C.NENV → i ≠ k.last_env_idx → ¬ Candidate k.envs i) := by
  obtain ⟨i0, h0, hlt, hr⟩ := h
  obtain ⟨idx, hs⟩ := sched_scan_isSome C.NENV k.envs k.last_env_idx ⟨i0, hlt, h0, hr⟩
  obtain ⟨j, _, hj, hidx, hcand, hmin⟩ :=
    sched_scan_some C.NENV k.envs k.last_env_idx C.NENV 0 idx hs
  have hran : (sched_yield C k).ran = some idx := by
    rw [sched_yield_of_some C k idx hs]; rfl
  refine ⟨⟨j + 1, by omega, by omega, ?_, ?_, ?_⟩, ?_⟩
  · rw [← Nat.add_assoc, ← hidx]; exact hcand
  · intro j' h1 h2
    have := hmin (j' - 1) (Nat.zero_le _) (by omega)
    rwa [show k.last_env_idx + (j' - 1) + 1 = k.last_env_idx + j' by omega] at this
  · rw [hran, ← Nat.add_assoc, ← hidx]
  · rw [hran]
    constructor
    · intro he
      have he' : idx = k.last_env_idx := by simpa using he
      have hfull : j + 1 = C.NENV :=
        mod_cycle_full C.NENV k.last_env_idx j hc (by omega) (by rw [← hidx]; exact he')
      refine ⟨he' ▸ hcand, ?_⟩
      intro i hi hne
      obtain ⟨j', hj', hje⟩ := slot_reached C.NENV k.last_env_idx i hi
      have hlt' : j' < j := by
        rcases Nat.lt_or_ge j' j with hl | hg
        · exact hl
        · exfalso
          have : j' = j := by omega
          subst this
          exact hne (by rw [← hje, ← hidx]; exact he')
      have := hmin j' (Nat.zero_le _) hlt'
      rwa [hje] at this
    · rintro ⟨_, hall⟩
      by_contra hne
      have hne' : idx ≠ k.last_env_idx := fun e => hne (by rw [e])
      have hidxlt : idx < C.NENV := by rw [hidx]; exact Nat.mod_lt _ (by omega)
      exact hall idx hidxlt hne' hcand

theorem sched_yield_first_candidate_witness :
    (∃ j, 1 ≤ j ∧ j ≤ jos.NENV ∧
        Candidate demoKernel.envs ((demoKernel.last_env_idx + j) % jos.NENV) ∧
        (∀ j', 1 ≤ j' → j' < j →
          ¬ Candidate demoKernel.envs ((demoKernel.last_env_idx + j') % jos.NENV)) ∧
        (sched_yield jos demoKernel).ran = some ((demoKernel.last_env_idx + j) % jos.NENV)) ∧
    ((sched_yield jos demoKernel).ran = some demoKernel.last_env_idx ↔
        Candidate demoKernel.envs demoKernel.last_env_idx ∧
          ∀ i, i < jos.NENV → i ≠ demoKernel.last_env_idx → ¬ Candidate demoKernel.envs i) :=
  sched_yield_first_candidate jos demoKernel (by decide) ⟨5, by decide, by decide, by decide⟩

/-- C4: `sched_yield` ends in the monitor loop exactly when no slot of the table, slot 0
included, is RUNNABLE; and it runs the idle slot 0 exactly when slot 0 is RUNNABLE and no
other slot is. -/
theorem sched_yield_halt_iff (C : Consts) (k : Kernel) (hN : 0 < C.NENV) :
    ((sched_yield C k).isMonitor = true ↔
        ∀ idx, idx < C.NENV → (k.envs idx).env_status ≠ ENV_RUNNABLE) ∧
    ((sched_yield C k).ran = some 0 ↔
        (k.envs 0).env_status = ENV_RUNNABLE ∧
          ∀ idx, idx ≠ 0 → idx < C.NENV → (k.envs idx).env_status ≠ ENV_RUNNABLE) := by
  cases hs : sched_scan C.NENV k.envs k.last_env_idx 0 C.NENV with
  | some idx =>
    obtain ⟨hl, hc⟩ := sched_scan_some_lt _ _ _ _ hs
    rw [sched_yield_of_some C k idx hs]
    constructor
    · constructor
      · intro hm; simp [Outcome.isMonitor] at hm
      · intro hall; exact absurd hc.2 (hall idx hl)
    · constructor
      · intro he
        have : idx = 0 := by simpa [Outcome.ran] using he
        exact absurd this hc.1
      · rintro ⟨_, hall⟩; exact absurd hc.2 (hall idx hc.1 hl)
  | none =>
    have hnone := sched_scan_none_all C.NENV k.envs k.last_env_idx hs
    have hothers : ∀ idx, idx ≠ 0 → idx < C.NENV →
        (k.envs idx).env_status ≠ ENV_RUNNABLE :=
      fun idx h0 hl hr => hnone idx hl ⟨h0, hr⟩
    rw [sched_yield_of_none C k hs]
    by_cases h0 : (k.envs 0).env_status = ENV_RUNNABLE
    · rw [if_pos h0]
      constructor
      · constructor
        · intro hm; simp [Outcome.isMonitor] at hm
        · intro hall; exact absurd h0 (hall 0 hN)
      · constructor
        · intro _; exact ⟨h0, hothers⟩
        · intro _; rfl
    · rw [if_neg h0]
      constructor
      · constructor
        · intro _ idx hl
          by_cases hz : idx = 0
          · subst hz; exact h0
          · exact hothers idx hz hl
        · intro _; rfl
      · constructor
        · intro he; simp [Outcome.ran] at he
        · rintro ⟨hr, _⟩; exact absurd hr h0

theorem sched_yield_halt_iff_witness :
    ((sched_yield jos demoKernel).isMonitor = true ↔
        ∀ idx, idx < jos.NENV → (demoKernel.envs idx).env_status ≠ ENV_RUNNABLE) ∧
    ((sched_yield jos demoKernel).ran = some 0 ↔
        (demoKernel.envs 0).env_status = ENV_RUNNABLE ∧
          ∀ idx, idx ≠ 0 → idx < jos.NENV →
            (demoKernel.envs idx).env_status ≠ ENV_RUNNABLE) :=
  sched_yield_halt_iff jos demoKernel (by decide)

/-- An invocation of the scheduler leaves the process table as it was. -/
theorem sched_yield_kernel_envs (C : Consts) (k : Kernel) :
    (sched_yield C k).kernel.envs = k.envs := by
  cases hs : sched_scan C.NENV k.envs k.last_env_idx 0 C.NENV with
  | some idx => rw [sched_yield_of_some C k idx hs]; rfl
  | none =>
    rw [sched_yield_of_none C k hs]
    split <;> rfl

theorem sched_yield_kernel_cursor (C : Consts) (k : Kernel) (idx : Nat)
    (hs : sched_scan C.NENV k.envs k.last_env_idx 0 C.NENV = some idx) :
    (sched_yield C k).kernel.last_env_idx = idx := by
  rw [sched_yield_of_some C k idx hs]; rfl

/-- The number of candidate positions among the first d + 1 after the cursor bounds the
number of invocations needed to reach the slot at position d. -/
theorem sched_reach (C : Consts) (t : Nat) :
    ∀ n (k : Kernel) (d : Nat), d < C.NENV →
      (k.last_env_idx + d + 1) % C.NENV = t → Candidate k.envs t →
      ((Finset.range (d + 1)).filter
        (fun j => Candidate k.envs ((k.last_env_idx + j + 1) % C.NENV))).card ≤ n →
      some t ∈ (sched_yield_seq C n k).map Outcome.ran := by
  intro n
  induction n with
  | zero =>
    intro k d _ hd ht hcard
    exfalso
    have hmem : d ∈ (Finset.range (d + 1)).filter
        (fun j => Candidate k.envs ((k.last_env_idx + j + 1) % C.NENV)) := by
      simp only [Finset.mem_filter, Finset.mem_range]
      exact ⟨by omega, by rw [hd]; exact ht⟩
    have := Finset.card_pos.mpr ⟨d, hmem⟩
    omega
  | succ n ih =>
    intro k d hdN hd ht hcard
    have htlt : t < C.NENV := by rw [← hd]; exact Nat.mod_lt _ (by omega)
    obtain ⟨idx, hs⟩ := sched_scan_isSome C.NENV k.envs k.last_env_idx ⟨t, htlt, ht⟩
    obtain ⟨j, _, hj, hidx, hcand, hmin⟩ :=
      sched_scan_some C.NENV k.envs k.last_env_idx C.NENV 0 idx hs
    have hran : (sched_yield C k).ran = some idx := by
      rw [sched_yield_of_some C k idx hs]; rfl
    simp only [sched_yield_seq, List.map_cons, List.mem_cons]
    have hjd : j ≤ d := by
      by_contra hlt
      exact hmin d (Nat.zero_le _) (by omega) (by rw [hd]; exact ht)
    rcases Nat.eq_or_lt_of_le hjd with hjeq | hjlt
    · left
      rw [hran, hidx, hjeq, hd]
    · right
      have henvs := sched_yield_kernel_envs C k
      have hcur := sched_yield_kernel_cursor C k idx hs
      refine ih (sched_yield C k).kernel (d - j - 1) (by omega) ?_ (by rw [henvs]; exact ht) ?_
      · rw [hcur, hidx]
        rw [show (k.last_env_idx + j + 1) % C.NENV + (d - j - 1) + 1
            = (d - j) + (k.last_env_idx + j + 1) % C.NENV by omega, Nat.add_mod_mod,
          show (d - j) + (k.last_env_idx + j + 1) = k.last_env_idx + d + 1 by omega]
        exact hd
      · rw [henvs, hcur]
        have hsub : ((Finset.range (d - j - 1 + 1)).filter
            (fun i => Candidate k.envs ((idx + i + 1) % C.NENV))).card ≤
            (((Finset.range (d + 1)).filter
              (fun i => Candidate k.envs ((k.last_env_idx + i + 1) % C.NENV))).erase j).card := by
          apply Finset.card_le_card_of_injOn (fun i => i + j + 1)
          · intro i hi
            rw [Finset.mem_filter, Finset.mem_range] at hi
            rw [Finset.mem_erase, Finset.mem_filter, Finset.mem_range]
            refine ⟨by omega, by omega, ?_⟩
            have := hi.2
            rw [hidx, show (k.last_env_idx + j + 1) % C.NENV + i + 1
                = (i + 1) + (k.last_env_idx + j + 1) % C.NENV by omega, Nat.add_mod_mod,
              show (i + 1) + (k.last_env_idx + j + 1) = k.last_env_idx + (i + j + 1) + 1 by omega]
              at this
            exact this
          · intro a _ b _ hab
            have hab' : a + j + 1 = b + j + 1 := hab
            omega
        have hjmem : j ∈ (Finset.range (d + 1)).filter
            (fun i => Candidate k.envs ((k.last_env_idx + i + 1) % C.NENV)) := by
          simp only [Finset.mem_filter, Finset.mem_range]
          exact ⟨by omega, by rw [← hidx]; exact hcand⟩
        rw [Finset.card_erase_of_mem hjmem] at hsub
        omega

/-- The candidate positions after the cursor are no more than the candidate slots. -/
theorem candidate_positions_le (N : Nat) (envs : Nat → Env) (c d : Nat) (hd : d < N) :
    ((Finset.range (d + 1)).filter (fun j => Candidate envs ((c + j + 1) % N))).card ≤
      ((Finset.range N).filter (fun idx => Candidate envs idx)).card := by
  apply Finset.card_le_card_of_injOn (fun j => (c + j + 1) % N)
  · intro j hj
    rw [Finset.mem_filter, Finset.mem_range] at hj
    rw [Finset.mem_filter, Finset.mem_range]
    exact ⟨Nat.mod_lt _ (by omega), hj.2⟩
  · intro a ha b hb hab
    rw [Finset.mem_coe, Finset.mem_filter, Finset.mem_range] at ha hb
    have hab' : (c + a + 1) % N = (c + b + 1) % N := hab
    have ha1 := ha.1
    have hb1 := hb.1
    -- both positions lie below N, so equal residues force equal positions
    have key : ∀ x y, x ≤ y → y < N → (c + x + 1) % N = (c + y + 1) % N → x = y := by
      intro x y hxy hy h
      have h1 : (c + y + 1) = (c + x + 1) + (y - x) := by omega
      have h2 : (c + x + 1) % N = ((c + x + 1) + (y - x)) % N := by rw [← h1]; exact h
      have h3 : (y - x) % N = 0 := by
        have := (Nat.ModEq.add_left_cancel' (c + x + 1) (show c + x + 1 + 0 ≡ c + x + 1 + (y - x) [MOD N] from by simpa [Nat.ModEq] using h2))
        simpa [Nat.ModEq] using this.symm
      rw [Nat.mod_eq_of_lt (by omega)] at h3
      omega
    rcases Nat.le_total a b with h | h
    · exact key a b h (by omega) hab'
    · exact (key b a h (by omega) hab'.symm).symm

/-- C3: fairness.  With exactly n non-idle RUNNABLE slots in the table (n at least 1) and
any cursor, n consecutive invocations of `sched_yield`, each continuing from the cursor
the previous one left, run every RUNNABLE non-idle slot at least once. -/
theorem sched_yield_fair (C : Consts) (k : Kernel) (n : Nat)
    (hn : ((Finset.range C.NENV).filter (fun idx => Candidate k.envs idx)).card = n)
    (t : Nat) (ht0 : t ≠ 0) (htN : t < C.NENV)
    (htr : (k.envs t).env_status = ENV_RUNNABLE) :
    some t ∈ (sched_yield_seq C n k).map Outcome.ran := by
  obtain ⟨d, hd, hdt⟩ := slot_reached C.NENV k.last_env_idx t htN
  refine sched_reach C t n k d hd hdt ⟨ht0, htr⟩ ?_
  rw [← hn]
  exact candidate_positions_le C.NENV k.envs k.last_env_idx d hd

theorem sched_yield_fair_witness :
    some 5 ∈ (sched_yield_seq smallConsts 2 demoKernel).map Outcome.ran :=
  sched_yield_fair smallConsts demoKernel 2 (by decide) 5 (by decide) (by decide) (by decide)

/-! ## Theorems: the page-fault handler -/

theorem sched_yield_kernel_mem (C : Consts) (k : Kernel) :
    (sched_yield C k).kernel.mem = k.mem ∧ (sched_yield C k).kernel.ktf = k.ktf := by
  cases hs : sched_scan C.NENV k.envs k.last_env_idx 0 C.NENV with
  | some idx => rw [sched_yield_of_some C k idx hs]; exact ⟨rfl, rfl⟩
  | none =>
    rw [sched_yield_of_none C k hs]
    split <;> exact ⟨rfl, rfl⟩

/-- Whatever the scheduler runs is RUNNABLE. -/
theorem sched_yield_ran_runnable (C : Consts) (k : Kernel) (idx : Nat)
    (h : (sched_yield C k).ran = some idx) : (k.envs idx).env_status = ENV_RUNNABLE := by
  cases hs : sched_scan C.NENV k.envs k.last_env_idx 0 C.NENV with
  | some i =>
    rw [sched_yield_of_some C k i hs] at h
    have : i = idx := by simpa [Outcome.ran] using h
    subst this
    obtain ⟨j, _, _, _, hc, _⟩ := sched_scan_some _ _ _ _ _ _ hs
    exact hc.2
  | none =>
    rw [sched_yield_of_none C k hs] at h
    by_cases h0 : (k.envs 0).env_status = ENV_RUNNABLE
    · rw [if_pos h0] at h
      have : 0 = idx := by simpa [Outcome.ran] using h
      subst this; exact h0
    · rw [if_neg h0] at h; simp [Outcome.ran] at h

/-- Destroying the current process: its slot becomes FREE and keeps its other fields, no
other slot changes, memory and the kernel-stack frame are untouched, and the process does
not receive control. -/
theorem env_destroy_curenv (C : Consts) (k : Kernel) (cur : Nat) (hcur : k.curenv = some cur) :
    (env_destroy C k cur).kernel.envs
        = Function.update k.envs cur { k.envs cur with env_status := ENV_FREE } ∧
      (env_destroy C k cur).kernel.mem = k.mem ∧
      (env_destroy C k cur).kernel.ktf = k.ktf ∧
      (env_destroy C k cur).ran ≠ some cur ∧
      (env_destroy C k cur).isPanic = false := by
  simp only [env_destroy, hcur, if_true]
  refine ⟨?_, ?_, ?_, ?_, ?_⟩
  · rw [sched_yield_kernel_envs]
  · rw [(sched_yield_kernel_mem _ _).1]
  · rw [(sched_yield_kernel_mem _ _).2]
  · intro h
    have := sched_yield_ran_runnable _ _ _ h
    simp at this
  · cases hs : sched_scan C.NENV (Function.update k.envs cur
        { k.envs cur with env_status := ENV_FREE }) k.last_env_idx 0 C.NENV with
    | some idx => rw [sched_yield_of_some _ _ idx hs]; rfl
    | none =>
      rw [sched_yield_of_none _ _ hs]
      split <;> rfl

/-- The user-mode path of the handler, with the address computation named. -/
theorem page_fault_handler_user (C : Consts) (k : Kernel) (tf : TfPtr) (cur : Nat)
    (f : Trapframe) (hcur : k.curenv = some cur) (htf : read_tf k tf = some f)
    (hcs : f.tf_cs &&& 3 = 3) :
    page_fault_handler C k tf =
      if (k.envs cur).env_pgfault_upcall = 0 then env_destroy C k cur
      else if ¬ k.user_mem_check (sub32 C.UXSTACKTOP C.PGSIZE) C.PGSIZE
          (C.PTE_U ||| C.PTE_P ||| C.PTE_W) then env_destroy C k cur
      else if ¬ k.user_mem_check (k.envs cur).env_pgfault_upcall 4 (C.PTE_P ||| C.PTE_U) then
        env_destroy C k cur
      else if pushed_esp C f.tf_esp < sub32 C.UXSTACKTOP C.PGSIZE then
        env_destroy C (write_tf k cur tf
          { f with tf_esp := pushed_esp C f.tf_esp
                   tf_eip := (k.envs cur).env_pgfault_upcall }) cur
      else
        env_run
          { write_tf k cur tf
              { f with tf_esp := pushed_esp C f.tf_esp
                       tf_eip := (k.envs cur).env_pgfault_upcall } with
            mem := store_utf C k.mem (pushed_esp C f.tf_esp) (build_utf f k.cr2) } cur := by
  have hmem : ∀ g, (write_tf k cur tf g).mem = k.mem := by
    intro g; cases tf <;> rfl
  simp only [page_fault_handler, user_mem_assert, htf, hcs, hcur, pushed_esp, build_utf, hmem]
  simp

theorem sub32_of_le (a b : Nat) (h1 : b ≤ a) (h2 : a < 2 ^ 32) : sub32 a b = a - b := by
  unfold sub32; omega

/-- Under the layout facts the page bound of the code is the plain difference. -/
theorem uxstack_base (C : Consts) (hL : C.LayoutOk) :
    sub32 C.UXSTACKTOP C.PGSIZE = C.UXSTACKTOP - C.PGSIZE :=
  sub32_of_le _ _ hL.2.1 hL.1

/-- The computed address in the recursive case, without wrap-around. -/
theorem pushed_esp_recursive (C : Consts) (hL : C.LayoutOk) (esp : Nat)
    (h1 : C.UXSTACKTOP - C.PGSIZE ≤ esp) (h2 : esp < C.UXSTACKTOP) :
    pushed_esp C esp = esp - 4 - C.sizeof_UTrapframe := by
  obtain ⟨hT, hP, hS, hB⟩ := hL
  unfold pushed_esp
  rw [sub32_of_le _ _ hP hT, if_pos ⟨h2, h1⟩, sub32_of_le esp 4 (by omega) (by omega),
    sub32_of_le _ _ (by omega) (by omega)]

/-- The computed address in the non-recursive case. -/
theorem pushed_esp_fresh (C : Consts) (hL : C.LayoutOk) (esp : Nat)
    (h : ¬ (C.UXSTACKTOP - C.PGSIZE ≤ esp ∧ esp < C.UXSTACKTOP)) :
    pushed_esp C esp = C.UXSTACKTOP - C.sizeof_UTrapframe := by
  obtain ⟨hT, hP, hS, hB⟩ := hL
  unfold pushed_esp
  rw [sub32_of_le _ _ hP hT, if_neg (fun hh => h ⟨hh.2, hh.1⟩),
    sub32_of_le _ _ (by omega) hT]

/-- A delivered fault: the state the handler leaves and the process it resumes. -/
theorem page_fault_handler_delivered (C : Consts) (k : Kernel) (tf : TfPtr) (cur : Nat)
    (f : Trapframe) (hcur : k.curenv = some cur) (htf : read_tf k tf = some f)
    (hcs : f.tf_cs &&& 3 = 3) (hup : (k.envs cur).env_pgfault_upcall ≠ 0)
    (hm1 : k.user_mem_check (sub32 C.UXSTACKTOP C.PGSIZE) C.PGSIZE
      (C.PTE_U ||| C.PTE_P ||| C.PTE_W) = true)
    (hm2 : k.user_mem_check (k.envs cur).env_pgfault_upcall 4 (C.PTE_P ||| C.PTE_U) = true)
    (hfit : ¬ pushed_esp C f.tf_esp < sub32 C.UXSTACKTOP C.PGSIZE) :
    page_fault_handler C k tf =
      .env_run
        { write_tf k cur tf
            { f with tf_esp := pushed_esp C f.tf_esp
                     tf_eip := (k.envs cur).env_pgfault_upcall } with
          mem := store_utf C k.mem (pushed_esp C f.tf_esp) (build_utf f k.cr2)
          curenv := some cur } cur := by
  rw [page_fault_handler_user C k tf cur f hcur htf hcs]
  simp [hup, hm1, hm2, hfit, env_run]

theorem store_utf_outside (C : Consts) (mem : Nat → Nat) (addr : Nat) (utf : UTrapframe)
    (a : Nat) (h : ¬ (addr ≤ a ∧ a < addr + C.sizeof_UTrapframe)) :
    store_utf C mem addr utf a = mem a := by
  simp only [store_utf, if_neg h]

theorem write_tf_frame (k : Kernel) (cur : Nat) (tf : TfPtr) (g : Trapframe) :
    (write_tf k cur tf g).curenv = k.curenv ∧ (write_tf k cur tf g).mem = k.mem ∧
      (∀ i, i ≠ cur → (write_tf k cur tf g).envs i = k.envs i) ∧
      ((write_tf k cur tf g).envs cur).env_status = (k.envs cur).env_status ∧
      ((write_tf k cur tf g).envs cur).env_pgfault_upcall
        = (k.envs cur).env_pgfault_upcall := by
  cases tf
  · exact ⟨rfl, rfl, fun _ _ => rfl, rfl, rfl⟩
  · refine ⟨rfl, rfl, ?_, ?_, ?_⟩
    · intro i hi; simp [write_tf, Function.update_noteq hi]
    · simp [write_tf]
    · simp [write_tf]

/-- C6: exception-stack overflow.  For a user-mode fault of a process with a registered
upcall, when the address computed for the record lies below UXSTACKTOP - PGSIZE the
handler destroys the current process (its slot becomes FREE, no other slot changes),
leaves every byte of memory as it was, so no record is stored, and the process does not
receive control. -/
theorem page_fault_overflow_destroys (C : Consts) (k : Kernel) (tf : TfPtr) (cur : Nat)
    (f : Trapframe) (hcur : k.curenv = some cur) (htf : read_tf k tf = some f)
    (hcs : f.tf_cs &&& 3 = 3) (hup : (k.envs cur).env_pgfault_upcall ≠ 0)
    (hov : pushed_esp C f.tf_esp < sub32 C.UXSTACKTOP C.PGSIZE) :
    ((page_fault_handler C k tf).kernel.envs cur).env_status = ENV_FREE ∧
      (∀ i, i ≠ cur → (page_fault_handler C k tf).kernel.envs i = k.envs i) ∧
      (page_fault_handler C k tf).kernel.mem = k.mem ∧
      (page_fault_handler C k tf).ran ≠ some cur := by
  have hplain := env_destroy_curenv C k cur hcur
  obtain ⟨hw1, hw2, hw3, _, _⟩ := write_tf_frame k cur tf
    { f with tf_esp := pushed_esp C f.tf_esp, tf_eip := (k.envs cur).env_pgfault_upcall }
  have hwritten := env_destroy_curenv C (write_tf k cur tf
    { f with tf_esp := pushed_esp C f.tf_esp, tf_eip := (k.envs cur).env_pgfault_upcall })
    cur (by rw [hw1]; exact hcur)
  rw [page_fault_handler_user C k tf cur f hcur htf hcs, if_neg hup]
  have plain : ((env_destroy C k cur).kernel.envs cur).env_status = ENV_FREE ∧
      (∀ i, i ≠ cur → (env_destroy C k cur).kernel.envs i = k.envs i) ∧
      (env_destroy C k cur).kernel.mem = k.mem ∧
      (env_destroy C k cur).ran ≠ some cur := by
    obtain ⟨he, hm, _, hr, _⟩ := hplain
    refine ⟨by rw [he]; simp, ?_, hm, hr⟩
    intro i hi; rw [he, Function.update_noteq hi]
  by_cases hc1 : ¬ k.user_mem_check (sub32 C.UXSTACKTOP C.PGSIZE) C.PGSIZE
      (C.PTE_U ||| C.PTE_P ||| C.PTE_W) = true
  · rw [if_pos hc1]; exact plain
  · rw [if_neg hc1]
    by_cases hc2 : ¬ k.user_mem_check (k.envs cur).env_pgfault_upcall 4
        (C.PTE_P ||| C.PTE_U) = true
    · rw [if_pos hc2]; exact plain
    · rw [if_neg hc2, if_pos hov]
      obtain ⟨he, hm, _, hr, _⟩ := hwritten
      refine ⟨by rw [he]; simp, ?_, by rw [hm, hw2], hr⟩
      intro i hi; rw [he, Function.update_noteq hi, hw3 i hi]

theorem page_fault_overflow_destroys_witness :
    ((page_fault_handler jos demoOverflow .env_tf).kernel.envs 2).env_status = ENV_FREE ∧
      (∀ i, i ≠ 2 → (page_fault_handler jos demoOverflow .env_tf).kernel.envs i
        = demoOverflow.envs i) ∧
      (page_fault_handler jos demoOverflow .env_tf).kernel.mem = demoOverflow.mem ∧
      (page_fault_handler jos demoOverflow .env_tf).ran ≠ some 2 :=
  page_fault_overflow_destroys jos demoOverflow .env_tf 2 (demoOverflow.envs 2).env_tf
    rfl rfl (by decide) (by decide) (by decide)

/-- C7: a page fault whose frame does not carry privilege level 3 in its code segment
selector ends in a panic, whether or not an upcall is registered; the kernel state is
exactly what it was (no slot destroyed, no record stored, no saved context rewritten) and
no process receives control. -/
theorem page_fault_kernel_mode_panics (C : Consts) (k : Kernel) (tf : TfPtr) (f : Trapframe)
    (htf : read_tf k tf = some f) (hcs : f.tf_cs &&& 3 ≠ 3) :
    page_fault_handler C k tf = .panic k ∧
      (page_fault_handler C k tf).isPanic = true ∧
      (page_fault_handler C k tf).kernel = k ∧
      (page_fault_handler C k tf).ran = none := by
  have h : page_fault_handler C k tf = .panic k := by
    simp [page_fault_handler, htf, hcs]
  rw [h]
  exact ⟨rfl, rfl, rfl, rfl⟩

theorem page_fault_kernel_mode_panics_witness :
    page_fault_handler jos demoKernel .kstack = .panic demoKernel ∧
      (page_fault_handler jos demoKernel .kstack).isPanic = true ∧
      (page_fault_handler jos demoKernel .kstack).kernel = demoKernel ∧
      (page_fault_handler jos demoKernel .kstack).ran = none :=
  page_fault_kernel_mode_panics jos demoKernel .kstack demoKernel.ktf rfl (by decide)

/-- C8: a user-mode page fault of a process without a registered upcall destroys that
process and does nothing else: its slot becomes FREE, every other slot of the table is as
before, no byte of memory changes, the saved context of the process and the frame on the
kernel stack keep their values (eip and esp are not redirected), and the process does not
receive control. -/
theorem page_fault_no_upcall_destroys (C : Consts) (k : Kernel) (tf : TfPtr) (cur : Nat)
    (f : Trapframe) (hcur : k.curenv = some cur) (htf : read_tf k tf = some f)
    (hcs : f.tf_cs &&& 3 = 3) (hup : (k.envs cur).env_pgfault_upcall = 0) :
    page_fault_handler C k tf = env_destroy C k cur ∧
      ((page_fault_handler C k tf).kernel.envs cur).env_status = ENV_FREE ∧
      (∀ i, i ≠ cur → (page_fault_handler C k tf).kernel.envs i = k.envs i) ∧
      (page_fault_handler C k tf).kernel.mem = k.mem ∧
      ((page_fault_handler C k tf).kernel.envs cur).env_tf = (k.envs cur).env_tf ∧
      (page_fault_handler C k tf).kernel.ktf = k.ktf ∧
      (page_fault_handler C k tf).ran ≠ some cur := by
  obtain ⟨he, hm, hk, hr, _⟩ := env_destroy_curenv C k cur hcur
  rw [page_fault_handler_user C k tf cur f hcur htf hcs, if_pos hup]
  refine ⟨rfl, by rw [he]; simp, ?_, hm, by rw [he]; simp, hk, hr⟩
  intro i hi; rw [he, Function.update_noteq hi]

theorem page_fault_no_upcall_destroys_witness :
    page_fault_handler jos demoNoUpcall .env_tf = env_destroy jos demoNoUpcall 5 ∧
      ((page_fault_handler jos demoNoUpcall .env_tf).kernel.envs 5).env_status = ENV_FREE ∧
      (∀ i, i ≠ 5 → (page_fault_handler jos demoNoUpcall .env_tf).kernel.envs i
        = demoNoUpcall.envs i) ∧
      (page_fault_handler jos demoNoUpcall .env_tf).kernel.mem = demoNoUpcall.mem ∧
      ((page_fault_handler jos demoNoUpcall .env_tf).kernel.envs 5).env_tf
        = (demoNoUpcall.envs 5).env_tf ∧
      (page_fault_handler jos demoNoUpcall .env_tf).kernel.ktf = demoNoUpcall.ktf ∧
      (page_fault_handler jos demoNoUpcall .env_tf).ran ≠ some 5 :=
  page_fault_no_upcall_destroys jos demoNoUpcall .env_tf 5 (demoNoUpcall.envs 5).env_tf
    rfl rfl (by decide) (by decide)

/-- With a handler already recorded, a call only replaces it. -/
theorem set_pgfault_handler_later (C : Consts) (upcall : Nat) (reply : SysReply)
    (s : UserLib) (h : Nat) (hs : s._pgfault_handler ≠ 0) :
    set_pgfault_handler C upcall reply s h = .ok { s with _pgfault_handler := h } := by
  simp [set_pgfault_handler, hs]

/-- What a call that returns has done. -/
theorem set_pgfault_handler_ok (C : Consts) (upcall : Nat) (reply : SysReply)
    (s s1 : UserLib) (h : Nat) (hok : set_pgfault_handler C upcall reply s h = .ok s1) :
    s1._pgfault_handler = h ∧
      s1.calls = s.calls ++
        (if s._pgfault_handler = 0 then
          [Syscall.sys_page_alloc 0 (sub32 C.UXSTACKTOP C.PGSIZE)
              (C.PTE_P ||| C.PTE_U ||| C.PTE_W),
            Syscall.sys_env_set_pgfault_upcall 0 upcall]
        else []) := by
  unfold set_pgfault_handler at hok
  by_cases h0 : s._pgfault_handler = 0
  · simp only [h0, if_true] at hok
    split at hok
    · cases hok
    · split at hok
      · cases hok
      · cases hok
        simp [h0]
  · simp only [h0, if_false] at hok
    cases hok
    simp [h0]

/-- A run of calls with non-null handlers, started with a handler recorded, issues no
system call and ends with the last handler recorded. -/
theorem set_pgfault_handler_seq_later (C : Consts) (upcall : Nat) (reply : SysReply) :
    ∀ (hs : List Nat) (s : UserLib), s._pgfault_handler ≠ 0 → (∀ x ∈ hs, x ≠ 0) →
      set_pgfault_handler_seq C upcall reply s hs =
        .ok { _pgfault_handler := (hs.getLast?).getD s._pgfault_handler, calls := s.calls } := by
  intro hs
  induction hs with
  | nil => intro s _ _; rfl
  | cons h hs ih =>
    intro s hs0 hall
    have hh : h ≠ 0 := hall h (List.mem_cons_self _ _)
    rw [set_pgfault_handler_seq, set_pgfault_handler_later C upcall reply s h hs0]
    simp only
    rw [ih { s with _pgfault_handler := h } hh (fun x hx => hall x (List.mem_cons_of_mem _ hx))]
    cases hs with
    | nil => rfl
    | cons a t =>
      obtain ⟨v, hv⟩ : ∃ v, (a :: t).getLast? = some v :=
        ⟨_, List.getLast?_eq_getLast _ (List.cons_ne_nil _ _)⟩
      simp [List.getLast?_cons_cons, hv]

/-- C10 as stated fails for the NULL handler: registering 0 twice, from a state with no
handler and a kernel that accepts every call, allocates the exception stack and registers
the upcall in the first call and again in the second. -/
theorem set_pgfault_handler_null_repeats :
    set_pgfault_handler jos 0x800200 (fun _ _ => 0) ⟨0, []⟩ 0
        = .ok ⟨0, [Syscall.sys_page_alloc 0 0xeebff000 7,
                   Syscall.sys_env_set_pgfault_upcall 0 0x800200]⟩ ∧
      set_pgfault_handler jos 0x800200 (fun _ _ => 0)
          ⟨0, [Syscall.sys_page_alloc 0 0xeebff000 7,
               Syscall.sys_env_set_pgfault_upcall 0 0x800200]⟩ 0
        = .ok ⟨0, [Syscall.sys_page_alloc 0 0xeebff000 7,
                   Syscall.sys_env_set_pgfault_upcall 0 0x800200,
                   Syscall.sys_page_alloc 0 0xeebff000 7,
                   Syscall.sys_env_set_pgfault_upcall 0 0x800200]⟩ := by
  decide

/-- C10, amended: for a handler h that is not NULL and any prior state, when
`set_pgfault_handler(h)` returns, it has issued the allocation and the registration
exactly if no handler was recorded before, a second `set_pgfault_handler(h)` issues no
system call and only replaces `_pgfault_handler`, and so does every call of any further
sequence of calls with non-NULL handlers. -/
theorem set_pgfault_handler_idempotent (C : Consts) (upcall : Nat) (reply : SysReply)
    (s s1 : UserLib) (h : Nat) (hh : h ≠ 0)
    (hok : set_pgfault_handler C upcall reply s h = .ok s1) :
    s1.calls = s.calls ++
        (if s._pgfault_handler = 0 then
          [Syscall.sys_page_alloc 0 (sub32 C.UXSTACKTOP C.PGSIZE)
              (C.PTE_P ||| C.PTE_U ||| C.PTE_W),
            Syscall.sys_env_set_pgfault_upcall 0 upcall]
        else []) ∧
      set_pgfault_handler C upcall reply s1 h = .ok s1 ∧
      (∀ h2, set_pgfault_handler C upcall reply s1 h2
        = .ok { _pgfault_handler := h2, calls := s1.calls }) ∧
      (∀ hs : List Nat, (∀ x ∈ hs, x ≠ 0) →
        set_pgfault_handler_seq C upcall reply s1 hs
          = .ok { _pgfault_handler := (hs.getLast?).getD h, calls := s1.calls }) := by
  obtain ⟨hh1, hc1⟩ := set_pgfault_handler_ok C upcall reply s s1 h hok
  have hne : s1._pgfault_handler ≠ 0 := by rw [hh1]; exact hh
  refine ⟨hc1, ?_, ?_, ?_⟩
  · rw [set_pgfault_handler_later C upcall reply s1 h hne, ← hh1]
  · intro h2; exact set_pgfault_handler_later C upcall reply s1 h2 hne
  · intro hs hall
    rw [set_pgfault_handler_seq_later C upcall reply hs s1 hne hall, hh1]

theorem set_pgfault_handler_idempotent_witness :
    set_pgfault_handler jos 0x800200 (fun _ _ => 0)
        ⟨7, [Syscall.sys_page_alloc 0 0xeebff000 7,
             Syscall.sys_env_set_pgfault_upcall 0 0x800200]⟩ 7
      = .ok ⟨7, [Syscall.sys_page_alloc 0 0xeebff000 7,
                 Syscall.sys_env_set_pgfault_upcall 0 0x800200]⟩ :=
  (set_pgfault_handler_idempotent jos 0x800200 (fun _ _ => 0) ⟨0, []⟩
    ⟨7, [Syscall.sys_page_alloc 0 0xeebff000 7,
         Syscall.sys_env_set_pgfault_upcall 0 0x800200]⟩ 7 (by decide) (by decide)).2.1

/-! ## Theorems: the scheduler cursor -/

/-- The cursor after one invocation, by the result of the loop. -/
theorem sched_yield_cursor_cases (C : Consts) (k : Kernel) :
    (∃ idx, idx ≠ 0 ∧ idx < C.NENV ∧ (sched_yield C k).ran = some idx ∧
        (sched_yield C k).kernel.last_env_idx = idx ∧ (sched_yield C k).isMonitor = false) ∨
      (((sched_yield C k).ran = some 0 ∨ (sched_yield C k).ran = none) ∧
        (sched_yield C k).kernel.last_env_idx = k.last_env_idx) := by
  cases hs : sched_scan C.NENV k.envs k.last_env_idx 0 C.NENV with
  | some idx =>
    left
    obtain ⟨hl, hc⟩ := sched_scan_some_lt _ _ _ _ hs
    rw [sched_yield_of_some C k idx hs]
    exact ⟨idx, hc.1, hl, rfl, rfl, rfl⟩
  | none =>
    right
    rw [sched_yield_of_none C k hs]
    split
    · exact ⟨Or.inl rfl, rfl⟩
    · exact ⟨Or.inr rfl, rfl⟩

/-- Along consecutive invocations the cursor stays below NENV. -/
theorem sched_yield_seq_cursor (C : Consts) :
    ∀ n (k : Kernel), k.last_env_idx < C.NENV →
      ∀ o ∈ sched_yield_seq C n k, o.kernel.last_env_idx < C.NENV := by
  intro n
  induction n with
  | zero => intro k _ o ho; simp [sched_yield_seq] at ho
  | succ n ih =>
    intro k hk o ho
    have hone : (sched_yield C k).kernel.last_env_idx < C.NENV := by
      rcases sched_yield_cursor_cases C k with ⟨idx, _, hl, _, he, _⟩ | ⟨_, he⟩
      · rw [he]; exact hl
      · rw [he]; exact hk
    simp only [sched_yield_seq, List.mem_cons] at ho
    rcases ho with rfl | ho
    · exact hone
    · exact ih _ hone o ho

/-- C19: `sched_yield` sets the cursor to the slot it runs when that slot is not the idle
slot, and leaves the cursor alone when it runs slot 0 or ends in the monitor loop; so the
cursor changes only when a non-idle slot is chosen, and a cursor below NENV stays below
NENV, also along any number of consecutive invocations. -/
theorem sched_yield_cursor (C : Consts) (k : Kernel) :
    (∀ idx, (sched_yield C k).ran = some idx → idx ≠ 0 →
        (sched_yield C k).kernel.last_env_idx = idx) ∧
      ((sched_yield C k).ran = some 0 →
        (sched_yield C k).kernel.last_env_idx = k.last_env_idx) ∧
      ((sched_yield C k).isMonitor = true →
        (sched_yield C k).kernel.last_env_idx = k.last_env_idx) ∧
      ((sched_yield C k).kernel.last_env_idx ≠ k.last_env_idx →
        ∃ idx, idx ≠ 0 ∧ (sched_yield C k).ran = some idx) ∧
      (k.last_env_idx < C.NENV → (sched_yield C k).kernel.last_env_idx < C.NENV) ∧
      (k.last_env_idx < C.NENV →
        ∀ n, ∀ o ∈ sched_yield_seq C n k, o.kernel.last_env_idx < C.NENV) := by
  refine ⟨?_, ?_, ?_, ?_, ?_, ?_⟩
  · intro idx hr h0
    rcases sched_yield_cursor_cases C k with ⟨i, _, _, hri, he, _⟩ | ⟨hr0, _⟩
    · rw [hri] at hr
      have : i = idx := by simpa using hr
      rw [he, this]
    · rcases hr0 with h | h
      · rw [h] at hr
        have : 0 = idx := by simpa using hr
        exact absurd this.symm h0
      · rw [h] at hr; cases hr
  · intro hr
    rcases sched_yield_cursor_cases C k with ⟨i, hi0, _, hri, _, _⟩ | ⟨_, he⟩
    · rw [hri] at hr
      have : i = 0 := by simpa using hr
      exact absurd this hi0
    · exact he
  · intro hm
    rcases sched_yield_cursor_cases C k with ⟨i, _, _, _, _, hnm⟩ | ⟨_, he⟩
    · rw [hnm] at hm; cases hm
    · exact he
  · intro hne
    rcases sched_yield_cursor_cases C k with ⟨i, hi0, _, hri, _, _⟩ | ⟨_, he⟩
    · exact ⟨i, hi0, hri⟩
    · exact absurd he hne
  · intro hk
    rcases sched_yield_cursor_cases C k with ⟨idx, _, hl, _, he, _⟩ | ⟨_, he⟩
    · rw [he]; exact hl
    · rw [he]; exact hk
  · intro hk n
    exact sched_yield_seq_cursor C n k hk

theorem sched_yield_cursor_witness :
    (sched_yield jos demoKernel).kernel.last_env_idx < jos.NENV :=
  (sched_yield_cursor jos demoKernel).2.2.2.2.1 (by decide)

/-! ## Theorems: bounds of the push -/

/-- The handler changes memory only by storing the record at the computed address, and
only when the overflow check does not fire. -/
theorem page_fault_handler_mem (C : Consts) (k : Kernel) (tf : TfPtr) :
    (page_fault_handler C k tf).kernel.mem = k.mem ∨
      ∃ f, read_tf k tf = some f ∧
        ¬ pushed_esp C f.tf_esp < sub32 C.UXSTACKTOP C.PGSIZE ∧
        (page_fault_handler C k tf).kernel.mem
          = store_utf C k.mem (pushed_esp C f.tf_esp) (build_utf f k.cr2) := by
  cases htf : read_tf k tf with
  | none => left; simp [page_fault_handler, htf, Outcome.kernel]
  | some f =>
    by_cases hcs : f.tf_cs &&& 3 = 3
    · cases hcur : k.curenv with
      | none => left; simp [page_fault_handler, htf, hcs, hcur, Outcome.kernel]
      | some cur =>
        have hplain := (env_destroy_curenv C k cur hcur).2.1
        rw [page_fault_handler_user C k tf cur f hcur htf hcs]
        by_cases hup : (k.envs cur).env_pgfault_upcall = 0
        · rw [if_pos hup]; exact Or.inl hplain
        · rw [if_neg hup]
          by_cases hc1 : ¬ k.user_mem_check (sub32 C.UXSTACKTOP C.PGSIZE) C.PGSIZE
              (C.PTE_U ||| C.PTE_P ||| C.PTE_W) = true
          · rw [if_pos hc1]; exact Or.inl hplain
          · rw [if_neg hc1]
            by_cases hc2 : ¬ k.user_mem_check (k.envs cur).env_pgfault_upcall 4
                (C.PTE_P ||| C.PTE_U) = true
            · rw [if_pos hc2]; exact Or.inl hplain
            · rw [if_neg hc2]
              by_cases hov : pushed_esp C f.tf_esp < sub32 C.UXSTACKTOP C.PGSIZE
              · rw [if_pos hov]
                left
                obtain ⟨hw1, hw2, _, _, _⟩ := write_tf_frame k cur tf
                  { f with tf_esp := pushed_esp C f.tf_esp
                           tf_eip := (k.envs cur).env_pgfault_upcall }
                rw [(env_destroy_curenv C _ cur (by rw [hw1]; exact hcur)).2.1, hw2]
              · rw [if_neg hov]
                exact Or.inr ⟨f, rfl, hov, rfl⟩
    · left
      have : page_fault_handler C k tf = .panic k := by
        simp [page_fault_handler, htf, hcs]
      rw [this]; rfl

/-- C20: with 32-bit unsigned arithmetic and the layout facts of the headers, for every
trap-time esp: the subtractions that compute the address of the record do not wrap around
(the result is the integer difference); when the overflow check does not fire the record
[new_esp, new_esp + sizeof(struct UTrapframe)) lies inside the exception stack page
[UXSTACKTOP - PGSIZE, UXSTACKTOP); in the non-recursive case the overflow check cannot
fire; and whatever the handler does, every byte it changes lies inside that page. -/
theorem page_fault_push_in_bounds (C : Consts) (hL : C.LayoutOk) (esp : Nat) :
    ((pushed_esp C esp : Int) =
        if C.UXSTACKTOP - C.PGSIZE ≤ esp ∧ esp < C.UXSTACKTOP then
          (esp : Int) - 4 - C.sizeof_UTrapframe
        else (C.UXSTACKTOP : Int) - C.sizeof_UTrapframe) ∧
      (¬ pushed_esp C esp < sub32 C.UXSTACKTOP C.PGSIZE →
        C.UXSTACKTOP - C.PGSIZE ≤ pushed_esp C esp ∧
          pushed_esp C esp + C.sizeof_UTrapframe ≤ C.UXSTACKTOP) ∧
      (¬ (C.UXSTACKTOP - C.PGSIZE ≤ esp ∧ esp < C.UXSTACKTOP) →
        ¬ pushed_esp C esp < sub32 C.UXSTACKTOP C.PGSIZE) ∧
      (∀ (k : Kernel) (tf : TfPtr) (a : Nat),
        (page_fault_handler C k tf).kernel.mem a ≠ k.mem a →
          C.UXSTACKTOP - C.PGSIZE ≤ a ∧ a < C.UXSTACKTOP) := by
  have hbase := uxstack_base C hL
  have hrec := pushed_esp_recursive C hL
  have hfresh := pushed_esp_fresh C hL
  obtain ⟨hT, hP, hS, hB⟩ := hL
  have inb : ∀ e, ¬ pushed_esp C e < sub32 C.UXSTACKTOP C.PGSIZE →
      C.UXSTACKTOP - C.PGSIZE ≤ pushed_esp C e ∧
        pushed_esp C e + C.sizeof_UTrapframe ≤ C.UXSTACKTOP := by
    intro e hno
    rw [hbase] at hno
    by_cases hr : C.UXSTACKTOP - C.PGSIZE ≤ e ∧ e < C.UXSTACKTOP
    · have := hrec e hr.1 hr.2
      rw [this] at hno ⊢
      omega
    · have := hfresh e hr
      rw [this] at hno ⊢
      omega
  refine ⟨?_, inb esp, ?_, ?_⟩
  · by_cases hr : C.UXSTACKTOP - C.PGSIZE ≤ esp ∧ esp < C.UXSTACKTOP
    · rw [if_pos hr, hrec esp hr.1 hr.2]
      have : 4 + C.sizeof_UTrapframe ≤ esp := by omega
      omega
    · rw [if_neg hr, hfresh esp hr]
      omega
  · intro hr
    rw [hfresh esp hr, hbase]
    omega
  · intro k tf a ha
    rcases page_fault_handler_mem C k tf with hm | ⟨f, _, hno, hm⟩
    · rw [hm] at ha; exact absurd rfl ha
    · rw [hm] at ha
      obtain ⟨h1, h2⟩ := inb f.tf_esp hno
      by_contra hout
      apply ha
      exact store_utf_outside C k.mem _ _ a (by omega)

theorem page_fault_push_in_bounds_witness :
    ¬ pushed_esp jos 0xeebfdfc0 < sub32 jos.UXSTACKTOP jos.PGSIZE :=
  (page_fault_push_in_bounds jos (by decide) 0xeebfdfc0).2.2.1 (by decide)

/-! ## Theorems: trap_dispatch -/

/-- The fatal path of the dispatch step. -/
theorem trap_dispatch_unexpected (C : Consts) (X : TrapConsts) (syscall : SyscallFn)
    (k : Kernel) (tf : TfPtr) (cur : Nat) (f : Trapframe) (hcur : k.curenv = some cur)
    (htf : read_tf k tf = some f) (h1 : f.tf_trapno ≠ X.T_PGFLT)
    (h2 : f.tf_trapno ≠ X.T_SYSCALL) (h3 : f.tf_trapno ≠ X.IRQ_OFFSET)
    (h4 : f.tf_trapno ≠ X.IRQ_OFFSET + X.IRQ_SPURIOUS) :
    trap_dispatch C X syscall k tf =
      if f.tf_cs = X.GD_KT then .panic k else env_destroy C k cur := by
  simp [trap_dispatch, htf, h1, h2, h3, h4, hcur]

/-- A trap from user mode: the frame goes to the saved context of the current process and
the dispatch step works on that copy. -/
theorem trap_user (C : Consts) (X : TrapConsts) (syscall : SyscallFn) (k : Kernel)
    (cur : Nat) (hcur : k.curenv = some cur) (hu : k.ktf.tf_cs &&& 3 = 3) :
    trap C X syscall k =
      trap_resume C (trap_dispatch C X syscall
        { k with envs := Function.update k.envs cur { k.envs cur with env_tf := k.ktf } }
        .env_tf) := by
  unfold trap
  rw [if_pos hu]
  simp only [hcur]

/-- Destroying the current process never comes back to the caller. -/
theorem env_destroy_curenv_noret (C : Consts) (k : Kernel) (cur : Nat)
    (hcur : k.curenv = some cur) :
    (∃ k2 idx, env_destroy C k cur = .env_run k2 idx) ∨
      (∃ k2, env_destroy C k cur = .monitor k2) := by
  simp only [env_destroy, hcur, if_true]
  cases hs : sched_scan C.NENV (Function.update k.envs cur
      { k.envs cur with env_status := ENV_FREE }) k.last_env_idx 0 C.NENV with
  | some idx => left; rw [sched_yield_of_some _ _ idx hs]; exact ⟨_, _, rfl⟩
  | none =>
    rw [sched_yield_of_none _ _ hs]
    split
    · left; exact ⟨_, _, rfl⟩
    · right; exact ⟨_, rfl⟩

/-- C18: for a frame with trap number T_SYSCALL the dispatch step calls the dispatcher
with the saved eax as call number and the saved edx, ecx, ebx, edi, esi as arguments, in
this order.  When the dispatcher returns, the step stores the returned word, whatever it
is, in the saved eax of the frame tf points to, leaves every other field of that frame
and the rest of the kernel state as the dispatcher left them, and returns to its caller:
it destroys no process and does not call the scheduler.  When the dispatcher does not
return, the step adds nothing. -/
theorem trap_dispatch_syscall (C : Consts) (X : TrapConsts) (syscall : SyscallFn)
    (k : Kernel) (tf : TfPtr) (f : Trapframe) (htf : read_tf k tf = some f)
    (hno : f.tf_trapno = X.T_SYSCALL) (hne : X.T_SYSCALL ≠ X.T_PGFLT) :
    (∀ k1 ret,
        syscall k f.tf_regs.reg_eax f.tf_regs.reg_edx f.tf_regs.reg_ecx f.tf_regs.reg_ebx
            f.tf_regs.reg_edi f.tf_regs.reg_esi = .returned k1 ret →
          (tf = .kstack →
            trap_dispatch C X syscall k tf =
              .ret { k1 with
                ktf := { k1.ktf with
                  tf_regs := { k1.ktf.tf_regs with reg_eax := to_u32 ret } } }) ∧
          (tf = .env_tf → ∀ cur, k.curenv = some cur →
            trap_dispatch C X syscall k tf =
              .ret { k1 with
                envs := Function.update k1.envs cur
                  { k1.envs cur with
                    env_tf := { (k1.envs cur).env_tf with
                      tf_regs := { (k1.envs cur).env_tf.tf_regs with
                        reg_eax := to_u32 ret } } } }) ∧
          ((to_u32 ret : Int) = ret % 2 ^ 32)) ∧
      (∀ o,
        syscall k f.tf_regs.reg_eax f.tf_regs.reg_edx f.tf_regs.reg_ecx f.tf_regs.reg_ebx
            f.tf_regs.reg_edi f.tf_regs.reg_esi = .noreturn o →
          trap_dispatch C X syscall k tf = o) := by
  constructor
  · intro k1 ret hs
    refine ⟨?_, ?_, ?_⟩
    · intro h; subst h
      simp [trap_dispatch, htf, hne, hno, hs, store_eax]
    · intro h cur hcur; subst h
      simp [trap_dispatch, htf, hne, hno, hs, store_eax, hcur]
    · unfold to_u32
      exact Int.toNat_of_nonneg (Int.emod_nonneg _ (by norm_num))
  · intro o hs
    simp [trap_dispatch, htf, hne, hno, hs]

theorem trap_dispatch_syscall_witness :
    trap_dispatch jos josTrap demoSyscall demoSyscallTrap .env_tf =
      .ret { demoSyscallTrap with
        envs := Function.update demoSyscallTrap.envs 2
          { demoSyscallTrap.envs 2 with
            env_tf := { (demoSyscallTrap.envs 2).env_tf with
              tf_regs := { (demoSyscallTrap.envs 2).env_tf.tf_regs with
                reg_eax := to_u32 (-3) } } } } :=
  ((trap_dispatch_syscall jos josTrap demoSyscall demoSyscallTrap .env_tf
    (demoSyscallTrap.envs 2).env_tf rfl (by decide) (by decide)).1 demoSyscallTrap (-3)
      rfl).2.1 rfl 2 rfl

/-! ## Theorems: the calls issued by lib/fork.c -/

theorem AllOk_append (K : UserEnv) :
    ∀ (a pre b : List Syscall),
      AllOk K pre (a ++ b) ↔ AllOk K pre a ∧ AllOk K (pre ++ a) b := by
  intro a
  induction a with
  | nil => intro pre b; simp [AllOk]
  | cons c a ih =>
    intro pre b
    have h := ih (pre ++ [c]) b
    simp only [List.append_assoc, List.singleton_append] at h
    show ((c.checked = true → 0 ≤ K.reply pre c) ∧ AllOk K (pre ++ [c]) (a ++ b)) ↔
      ((c.checked = true → 0 ≤ K.reply pre c) ∧ AllOk K (pre ++ [c]) a) ∧
        AllOk K (pre ++ c :: a) b
    constructor
    · rintro ⟨h1, h2⟩
      exact ⟨⟨h1, (h.mp h2).1⟩, (h.mp h2).2⟩
    · rintro ⟨⟨h1, h2⟩, h3⟩
      exact ⟨h1, h.mpr ⟨h2, h3⟩⟩

theorem Issues.refl (C : Consts) (K : UserEnv) (s : UserLib) (g : Prop) :
    Issues C K s s g :=
  ⟨[], by simp, by simp, fun _ => trivial⟩

theorem Issues.trans (C : Consts) (K : UserEnv) (s s1 s2 : UserLib) (g : Prop)
    (h1 : Issues C K s s1 True) (h2 : Issues C K s1 s2 g) : Issues C K s s2 g := by
  obtain ⟨n1, e1, p1, a1⟩ := h1
  obtain ⟨n2, e2, p2, a2⟩ := h2
  refine ⟨n1 ++ n2, by rw [e2, e1, List.append_assoc], ?_, ?_⟩
  · intro c hc
    rcases List.mem_append.mp hc with h | h
    · exact p1 c h
    · exact p2 c h
  · intro hg
    rw [AllOk_append]
    exact ⟨a1 trivial, by rw [← e1]; exact a2 hg⟩

theorem Issues.weaken (C : Consts) (K : UserEnv) (s t : UserLib) (g g' : Prop)
    (h : Issues C K s t g) (hgg : g' → g) : Issues C K s t g' := by
  obtain ⟨n, e, p, a⟩ := h
  exact ⟨n, e, p, fun hg => a (hgg hg)⟩

/-- One call whose result is not negative, or a call of a failed operation. -/
theorem Issues.one (C : Consts) (K : UserEnv) (s : UserLib) (c : Syscall) (g : Prop)
    (hp : c.plain C) (hg : g → c.checked = true → 0 ≤ K.reply s.calls c) :
    Issues C K s (s.issue c) g :=
  ⟨[c], rfl, by simpa using hp, fun h => ⟨hg h, trivial⟩⟩

theorem plain_alloc (C : Consts) (hX : C.X86) (e va : Nat) :
    (Syscall.sys_page_alloc e va (C.PTE_P ||| C.PTE_U ||| C.PTE_W)).plain C ∧
      (Syscall.sys_page_alloc e va (C.PTE_U ||| C.PTE_P ||| C.PTE_W)).plain C := by
  obtain ⟨hP, hW, hU, _⟩ := hX
  simp only [Syscall.plain, Syscall.permOk, Syscall.isSetStatus, hP, hW, hU, PTE_COW]
  decide

theorem plain_map (C : Consts) (hX : C.X86) (se sva de dva : Nat) :
    (Syscall.sys_page_map se sva de dva (C.PTE_P ||| C.PTE_U ||| C.PTE_W)).plain C ∧
      (Syscall.sys_page_map se sva de dva (C.PTE_U ||| C.PTE_P ||| C.PTE_W)).plain C ∧
      (Syscall.sys_page_map se sva de dva (C.PTE_P ||| C.PTE_U ||| PTE_COW)).plain C ∧
      (Syscall.sys_page_map se sva de dva (C.PTE_U ||| C.PTE_P)).plain C := by
  obtain ⟨hP, hW, hU, _⟩ := hX
  simp only [Syscall.plain, Syscall.permOk, Syscall.isSetStatus, hP, hW, hU, PTE_COW]
  decide

theorem plain_other (C : Consts) :
    (∀ e va, (Syscall.sys_page_unmap e va).plain C) ∧
      (∀ d s l, (Syscall.memmove d s l).plain C) ∧
      (∀ e u, (Syscall.sys_env_set_pgfault_upcall e u).plain C) ∧
      Syscall.sys_exofork.plain C ∧ Syscall.sys_getenvid.plain C := by
  simp [Syscall.plain, Syscall.permOk, Syscall.isSetStatus]

theorem pgfault_issues (C : Consts) (hX : C.X86) (U : UserConsts) (K : UserEnv)
    (s : UserLib) (utf : UTrapframe) :
    Issues C K s (pgfault C U K s utf).state ((pgfault C U K s utf).isPanic = false) := by
  have pa := (plain_alloc C hX 0 U.PFTEMP).2
  have pm := (plain_map C hX 0 U.PFTEMP 0 (ROUNDDOWN utf.utf_fault_va C.PGSIZE)).2.1
  have pmm := (plain_other C).2.1 U.PFTEMP (ROUNDDOWN utf.utf_fault_va C.PGSIZE) C.PGSIZE
  have pu := (plain_other C).1 0 U.PFTEMP
  unfold pgfault
  simp only
  split
  · exact Issues.refl C K s _
  · split
    · exact Issues.refl C K s _
    · split
      · exact Issues.one C K s _ _ pa (fun h => by simp [LibResult.isPanic] at h)
      · rename_i h1
        have i1 := Issues.one C K s _ True pa (fun _ _ => by omega)
        have i2 := Issues.one C K (s.issue (Syscall.sys_page_alloc 0 U.PFTEMP
          (C.PTE_U ||| C.PTE_P ||| C.PTE_W))) _ True pmm (fun _ h => by simp [Syscall.checked] at h)
        have i12 := Issues.trans C K _ _ _ True i1 i2
        split
        · exact Issues.trans C K _ _ _ _ i12
            (Issues.one C K _ _ _ pm (fun h => by simp [LibResult.isPanic] at h))
        · rename_i h3
          have i3 := Issues.one C K ((s.issue (Syscall.sys_page_alloc 0 U.PFTEMP
            (C.PTE_U ||| C.PTE_P ||| C.PTE_W))).issue (Syscall.memmove U.PFTEMP
              (ROUNDDOWN utf.utf_fault_va C.PGSIZE) C.PGSIZE)) _ True pm (fun _ _ => by omega)
          have i123 := Issues.trans C K _ _ _ True i12 i3
          split
          · exact Issues.trans C K _ _ _ _ i123
              (Issues.one C K _ _ _ pu (fun h => by simp [LibResult.isPanic] at h))
          · rename_i h4
            exact Issues.trans C K _ _ _ _ i123
              (Issues.one C K _ _ _ pu (fun _ _ => by omega))

/-- C14: the handler `pgfault` panics without having issued any call, so with every
mapping and every byte as before, exactly when the error code lacks FEC_WR or the page
table entry of the faulting page lacks PTE_COW; in every other case its first step is the
allocation of the fresh page at PFTEMP. -/
theorem pgfault_panics_first_iff (C : Consts) (U : UserConsts) (K : UserEnv) (s : UserLib)
    (utf : UTrapframe) :
    (pgfault C U K s utf = .panic s ↔
        (utf.utf_err &&& U.FEC_WR = 0 ∨
          K.vpt s.calls (VPN C utf.utf_fault_va) &&& PTE_COW = 0)) ∧
      (¬ (utf.utf_err &&& U.FEC_WR = 0 ∨
            K.vpt s.calls (VPN C utf.utf_fault_va) &&& PTE_COW = 0) →
        ∃ rest, (pgfault C U K s utf).state.calls =
          s.calls ++ Syscall.sys_page_alloc 0 U.PFTEMP (C.PTE_U ||| C.PTE_P ||| C.PTE_W)
            :: rest) := by
  have key : ¬ (utf.utf_err &&& U.FEC_WR = 0 ∨
        K.vpt s.calls (VPN C utf.utf_fault_va) &&& PTE_COW = 0) →
      ∃ rest, (pgfault C U K s utf).state.calls =
        s.calls ++ Syscall.sys_page_alloc 0 U.PFTEMP (C.PTE_U ||| C.PTE_P ||| C.PTE_W)
          :: rest := by
    intro hn
    have h1 : ¬ utf.utf_err &&& U.FEC_WR = 0 := fun h => hn (Or.inl h)
    have h2 : ¬ K.vpt s.calls (VPN C utf.utf_fault_va) &&& PTE_COW = 0 :=
      fun h => hn (Or.inr h)
    unfold pgfault
    simp only [h1, h2, if_false]
    split
    · exact ⟨[], rfl⟩
    · split
      · exact ⟨_, by simp [LibResult.state, UserLib.issue]; rfl⟩
      · split
        · exact ⟨_, by simp [LibResult.state, UserLib.issue]; rfl⟩
        · exact ⟨_, by simp [LibResult.state, UserLib.issue]; rfl⟩
  refine ⟨⟨?_, ?_⟩, key⟩
  · intro hp
    by_contra hn
    obtain ⟨rest, hr⟩ := key hn
    rw [hp] at hr
    have := congrArg List.length hr
    simp [LibResult.state] at this
  · intro hc
    unfold pgfault
    rcases hc with h | h
    · simp [h]
    · by_cases h1 : utf.utf_err &&& U.FEC_WR = 0
      · simp [h1]
      · simp [h1, h]

theorem duppage_issues (C : Consts) (hX : C.X86) (K : UserEnv) (s : UserLib)
    (envid pn : Nat) :
    Issues C K s (duppage C K s envid pn).state ((duppage C K s envid pn).isPanic = false) ∧
      ∀ r t, duppage C K s envid pn = .ok r t → r = 0 := by
  have pc := fun de => (plain_map C hX 0 ((pn * C.PGSIZE) % 2 ^ 32) de
    ((pn * C.PGSIZE) % 2 ^ 32)).2.2.1
  have pr := (plain_map C hX 0 ((pn * C.PGSIZE) % 2 ^ 32) envid
    ((pn * C.PGSIZE) % 2 ^ 32)).2.2.2
  unfold duppage
  simp only
  split
  · split
    · exact ⟨Issues.one C K s _ _ (pc envid) (fun h => by simp [LibValue.isPanic] at h),
        fun r t h => by cases h⟩
    · rename_i h1
      have i1 := Issues.one C K s _ True (pc envid) (fun _ _ => by omega)
      split
      · exact ⟨Issues.trans C K _ _ _ _ i1
          (Issues.one C K _ _ _ (pc 0) (fun h => by simp [LibValue.isPanic] at h)),
          fun r t h => by cases h⟩
      · rename_i h2
        exact ⟨Issues.trans C K _ _ _ _ i1
          (Issues.one C K _ _ _ (pc 0) (fun _ _ => by omega)),
          fun r t h => by cases h; rfl⟩
  · split
    · exact ⟨Issues.one C K s _ _ pr (fun h => by simp [LibValue.isPanic] at h),
        fun r t h => by cases h⟩
    · rename_i h1
      exact ⟨Issues.one C K s _ _ pr (fun _ _ => by omega), fun r t h => by cases h; rfl⟩

theorem duppage2_issues (C : Consts) (hX : C.X86) (U : UserConsts) (K : UserEnv)
    (s : UserLib) (dstenv addr : Nat) :
    Issues C K s (duppage2 C U K s dstenv addr).state
      ((duppage2 C U K s dstenv addr).isPanic = false) := by
  have pa := (plain_alloc C hX dstenv addr).1
  have pm := (plain_map C hX dstenv addr 0 U.UTEMP).1
  have pmm := (plain_other C).2.1 U.UTEMP addr C.PGSIZE
  have pu := (plain_other C).1 0 U.UTEMP
  unfold duppage2
  simp only
  split
  · exact Issues.one C K s _ _ pa (fun h => by simp [LibResult.isPanic] at h)
  · rename_i h1
    have i1 := Issues.one C K s _ True pa (fun _ _ => by omega)
    split
    · exact Issues.trans C K _ _ _ _ i1
        (Issues.one C K _ _ _ pm (fun h => by simp [LibResult.isPanic] at h))
    · rename_i h2
      have i2 := Issues.one C K (s.issue (Syscall.sys_page_alloc dstenv addr
        (C.PTE_P ||| C.PTE_U ||| C.PTE_W))) _ True pm (fun _ _ => by omega)
      have i12 := Issues.trans C K _ _ _ True i1 i2
      have i3 := Issues.one C K ((s.issue (Syscall.sys_page_alloc dstenv addr
        (C.PTE_P ||| C.PTE_U ||| C.PTE_W))).issue (Syscall.sys_page_map dstenv addr 0 U.UTEMP
          (C.PTE_P ||| C.PTE_U ||| C.PTE_W))) _ True pmm
        (fun _ h => by simp [Syscall.checked] at h)
      have i123 := Issues.trans C K _ _ _ True i12 i3
      split
      · exact Issues.trans C K _ _ _ _ i123
          (Issues.one C K _ _ _ pu (fun h => by simp [LibResult.isPanic] at h))
      · rename_i h4
        exact Issues.trans C K _ _ _ _ i123
          (Issues.one C K _ _ _ pu (fun _ _ => by omega))

theorem set_pgfault_handler_issues (C : Consts) (hX : C.X86) (K : UserEnv) (upcall : Nat)
    (s : UserLib) (h : Nat) :
    Issues C K s (set_pgfault_handler C upcall K.reply s h).state
      ((set_pgfault_handler C upcall K.reply s h).isPanic = false) := by
  have pa := (plain_alloc C hX 0 (sub32 C.UXSTACKTOP C.PGSIZE)).1
  have pu := (plain_other C).2.2.1 0 upcall
  unfold set_pgfault_handler
  simp only
  split
  · split
    · exact Issues.one C K s _ _ pa (fun h => by simp [LibResult.isPanic] at h)
    · rename_i h1
      have i1 := Issues.one C K s _ True pa (fun _ _ => by omega)
      split
      · exact Issues.trans C K _ _ _ _ i1
          (Issues.one C K _ _ _ pu (fun h => by simp [LibResult.isPanic] at h))
      · rename_i h2
        have i2 := Issues.one C K (s.issue (Syscall.sys_page_alloc 0
          (sub32 C.UXSTACKTOP C.PGSIZE) (C.PTE_P ||| C.PTE_U ||| C.PTE_W))) _
          ((LibResult.ok { _pgfault_handler := h, calls := s.calls ++
            [Syscall.sys_page_alloc 0 (sub32 C.UXSTACKTOP C.PGSIZE)
              (C.PTE_P ||| C.PTE_U ||| C.PTE_W)] ++
            [Syscall.sys_env_set_pgfault_upcall 0 upcall] }).isPanic = false) pu
          (fun _ _ => by
            have h2' : K.reply (s.issue (Syscall.sys_page_alloc 0
                (sub32 C.UXSTACKTOP C.PGSIZE) (C.PTE_P ||| C.PTE_U ||| C.PTE_W))).calls
                (Syscall.sys_env_set_pgfault_upcall 0 upcall) = 0 := by
              simpa [UserLib.issue] using h2
            omega)
        exact Issues.trans C K _ _ _ _ i1 i2
  · exact Issues.refl C K s _

theorem fork_pt_loop_issues (C : Consts) (hX : C.X86) (K : UserEnv) (child : Nat) :
    ∀ n pti s, Issues C K s (fork_pt_loop C K child pti n s).state
      ((fork_pt_loop C K child pti n s).isPanic = false) := by
  intro n
  induction n with
  | zero => intro pti s; exact Issues.refl C K s _
  | succ n ih =>
    intro pti s
    simp only [fork_pt_loop]
    split
    · exact ih (pti + 1) s
    · obtain ⟨hd, hz⟩ := duppage_issues C hX K s child pti
      cases hdp : duppage C K s child pti with
      | panic s1 =>
        rw [hdp] at hd
        exact Issues.weaken C K _ _ _ _ hd (fun h => by simp [LibResult.isPanic] at h)
      | ok r s1 =>
        rw [hdp] at hd
        have hr : r = 0 := hz r s1 hdp
        subst hr
        simp only [ne_eq, not_true_eq_false, if_false]
        exact Issues.trans C K s s1 _ _
          (Issues.weaken C K _ _ _ _ hd (fun _ => rfl)) (ih (pti + 1) s1)

theorem fork_pd_loop_issues (C : Consts) (hX : C.X86) (U : UserConsts) (K : UserEnv)
    (child : Nat) :
    ∀ n pdi s, Issues C K s (fork_pd_loop C U K child pdi n s).state
      ((fork_pd_loop C U K child pdi n s).isPanic = false) := by
  intro n
  induction n with
  | zero => intro pdi s; exact Issues.refl C K s _
  | succ n ih =>
    intro pdi s
    simp only [fork_pd_loop]
    split
    · exact ih (pdi + 1) s
    · have hl := fork_pt_loop_issues C hX K child U.NPTENTRIES (pdi * U.NPDENTRIES) s
      cases hlp : fork_pt_loop C K child (pdi * U.NPDENTRIES) U.NPTENTRIES s with
      | panic s1 =>
        rw [hlp] at hl
        exact Issues.weaken C K _ _ _ _ hl (fun h => by simp [LibResult.isPanic] at h)
      | ok s1 =>
        rw [hlp] at hl
        exact Issues.trans C K s s1 _ _
          (Issues.weaken C K _ _ _ _ hl (fun _ => rfl)) (ih (pdi + 1) s1)

/-- The calls of `fork`: either no `sys_env_set_status` is among them, and when fork
returns none of the checked ones failed; or they are calls that did not fail followed by
one final `sys_env_set_status`. -/
theorem fork_shape (C : Consts) (hX : C.X86) (U : UserConsts) (K : UserEnv) (s : UserLib) :
    Issues C K s (fork C U K s).state ((fork C U K s).isPanic = false) ∨
      ∃ s5 child, Issues C K s s5 True ∧
        (fork C U K s).state.calls
          = s5.calls ++ [Syscall.sys_env_set_status child ENV_RUNNABLE] := by
  have h0 := set_pgfault_handler_issues C hX K U.upcall_addr s U.pgfault_addr
  unfold fork
  cases hsp : set_pgfault_handler C U.upcall_addr K.reply s U.pgfault_addr with
  | panic s0 =>
    rw [hsp] at h0
    left
    exact Issues.weaken C K _ _ _ _ h0 (fun h => by simp [LibValue.isPanic] at h)
  | ok s0 =>
    rw [hsp] at h0
    have i0 : Issues C K s s0 True := Issues.weaken C K _ _ _ _ h0 (fun _ => rfl)
    simp only
    split
    · left
      exact Issues.trans C K _ _ _ _ i0
        (Issues.one C K _ _ _ (plain_other C).2.2.2.1
          (fun h => by simp [LibValue.isPanic] at h))
    · rename_i hneg
      have i1 : Issues C K s (s0.issue Syscall.sys_exofork) True :=
        Issues.trans C K _ _ _ _ i0
          (Issues.one C K _ _ _ (plain_other C).2.2.2.1 (fun _ _ => by omega))
      split
      · left
        exact Issues.trans C K _ _ _ _ i1
          (Issues.one C K _ _ _ (plain_other C).2.2.2.2
            (fun _ h => by simp [Syscall.checked] at h))
      · have hl := fork_pd_loop_issues C hX U K
          (K.reply s0.calls Syscall.sys_exofork).toNat
          (VPD C U U.end_addr + 1 - VPD C U 0) (VPD C U 0) (s0.issue Syscall.sys_exofork)
        cases hlp : fork_pd_loop C U K (K.reply s0.calls Syscall.sys_exofork).toNat
            (VPD C U 0) (VPD C U U.end_addr + 1 - VPD C U 0)
            (s0.issue Syscall.sys_exofork) with
        | panic s2 =>
          rw [hlp] at hl
          left
          exact Issues.trans C K _ _ _ _ i1
            (Issues.weaken C K _ _ _ _ hl (fun h => by simp [LibValue.isPanic] at h))
        | ok s2 =>
          rw [hlp] at hl
          have i2 : Issues C K s s2 True :=
            Issues.trans C K _ _ _ _ i1 (Issues.weaken C K _ _ _ _ hl (fun _ => rfl))
          have hd := duppage2_issues C hX U K s2
            (K.reply s0.calls Syscall.sys_exofork).toNat
            (ROUNDDOWN U.child_id_addr C.PGSIZE)
          simp only
          cases hdp : duppage2 C U K s2 (K.reply s0.calls Syscall.sys_exofork).toNat
              (ROUNDDOWN U.child_id_addr C.PGSIZE) with
          | panic s3 =>
            rw [hdp] at hd
            left
            exact Issues.trans C K _ _ _ _ i2
              (Issues.weaken C K _ _ _ _ hd (fun h => by simp [LibValue.isPanic] at h))
          | ok s3 =>
            rw [hdp] at hd
            have i3 : Issues C K s s3 True :=
              Issues.trans C K _ _ _ _ i2 (Issues.weaken C K _ _ _ _ hd (fun _ => rfl))
            have pa := (plain_alloc C hX (K.reply s0.calls Syscall.sys_exofork).toNat
              (sub32 C.UXSTACKTOP C.PGSIZE)).1
            simp only
            split
            · left
              exact Issues.trans C K _ _ _ _ i3
                (Issues.one C K _ _ _ pa (fun h => by simp [LibValue.isPanic] at h))
            · rename_i h4
              have i4 := Issues.trans C K _ _ _ True i3
                (Issues.one C K _ _ _ pa (fun _ _ => by omega))
              split
              · left
                exact Issues.trans C K _ _ _ _ i4
                  (Issues.one C K _ _ _ ((plain_other C).2.2.1 _ _)
                    (fun h => by simp [LibValue.isPanic] at h))
              · rename_i h5
                have i5 := Issues.trans C K _ _ _ True i4
                  (Issues.one C K _ _ _ ((plain_other C).2.2.1
                    (K.reply s0.calls Syscall.sys_exofork).toNat
                    (K.env_pgfault_upcall (s3.issue (Syscall.sys_page_alloc
                      (K.reply s0.calls Syscall.sys_exofork).toNat
                      (sub32 C.UXSTACKTOP C.PGSIZE)
                      (C.PTE_P ||| C.PTE_U ||| C.PTE_W))).calls))
                    (fun _ _ => by omega))
                right
                refine ⟨_, (K.reply s0.calls Syscall.sys_exofork).toNat, i5, ?_⟩
                split <;> rfl

theorem setstatus_last (body pre post : List Syscall) (x y : Syscall)
    (hb : ∀ c ∈ body, c.isSetStatus = false) (hy : y.isSetStatus = true)
    (h : body ++ [x] = pre ++ y :: post) : pre = body ∧ post = [] ∧ y = x := by
  induction body generalizing pre with
  | nil =>
    cases pre with
    | nil =>
      simp only [List.nil_append, List.cons.injEq] at h
      exact ⟨rfl, h.2.symm, h.1.symm⟩
    | cons p ps =>
      simp only [List.nil_append, List.cons_append, List.cons.injEq] at h
      have := congrArg List.length h.2
      simp at this
      omega
  | cons b bs ih =>
    cases pre with
    | nil =>
      simp only [List.cons_append, List.nil_append, List.cons.injEq] at h
      have := hb b (List.mem_cons_self _ _)
      rw [h.1, hy] at this
      cases this
    | cons p ps =>
      simp only [List.cons_append, List.cons.injEq] at h
      obtain ⟨h1, h2, h3⟩ := ih ps (fun c hc => hb c (List.mem_cons_of_mem _ hc)) h.2
      exact ⟨by rw [h.1, h1], h2, h3⟩

theorem before_setstatus (body pre post : List Syscall) (x c : Syscall)
    (hx : x.isSetStatus = true) (hc : c.isSetStatus = false)
    (h : body ++ [x] = pre ++ c :: post) : ∃ post', body = pre ++ c :: post' := by
  induction body generalizing pre with
  | nil =>
    cases pre with
    | nil =>
      simp only [List.nil_append, List.cons.injEq] at h
      rw [h.1, hc] at hx
      cases hx
    | cons p ps =>
      simp only [List.nil_append, List.cons_append, List.cons.injEq] at h
      have := congrArg List.length h.2
      simp at this
      omega
  | cons b bs ih =>
    cases pre with
    | nil =>
      simp only [List.cons_append, List.nil_append, List.cons.injEq] at h
      exact ⟨bs, by rw [h.1]; rfl⟩
    | cons p ps =>
      simp only [List.cons_append, List.cons.injEq] at h
      obtain ⟨post', hp⟩ := ih ps h.2
      exact ⟨post', by rw [h.1, hp]; rfl⟩

theorem AddrSpaces.write_frame (C : Consts) (m : AddrSpaces) (va b : Nat) :
    (m.write C va b).pt = m.pt ∧ (m.write C va b).self = m.self ∧
      (m.write C va b).next_free = m.next_free := by
  unfold AddrSpaces.write
  split
  · split <;> exact ⟨rfl, rfl, rfl⟩
  · exact ⟨rfl, rfl, rfl⟩

theorem AddrSpaces.fold_write_frame (C : Consts) (f : Nat → Nat) (g : Nat → Nat) :
    ∀ (l : List Nat) (m : AddrSpaces),
      (l.foldl (fun acc i => acc.write C (f i) (g i)) m).pt = m.pt ∧
        (l.foldl (fun acc i => acc.write C (f i) (g i)) m).self = m.self ∧
        (l.foldl (fun acc i => acc.write C (f i) (g i)) m).next_free = m.next_free := by
  intro l
  induction l with
  | nil => intro m; exact ⟨rfl, rfl, rfl⟩
  | cons i l ih =>
    intro m
    simp only [List.foldl_cons]
    obtain ⟨h1, h2, h3⟩ := ih (m.write C (f i) (g i))
    obtain ⟨w1, w2, w3⟩ := AddrSpaces.write_frame C m (f i) (g i)
    exact ⟨h1.trans w1, h2.trans w2, h3.trans w3⟩

/-- A copy changes bytes only: mappings, caller and allocator are as before. -/
theorem AddrSpaces.memmove_frame (C : Consts) (m : AddrSpaces) (dst src len : Nat) :
    (m.memmove C dst src len).pt = m.pt ∧ (m.memmove C dst src len).self = m.self ∧
      (m.memmove C dst src len).next_free = m.next_free :=
  AddrSpaces.fold_write_frame C (fun i => dst + i) (fun i => m.read C (src + i))
    (List.range len) m

theorem AddrSpaces.step_self (C : Consts) (m : AddrSpaces) (c : Syscall) :
    (m.step C c).1.self = m.self := by
  cases c <;> simp only [AddrSpaces.step]
  · split <;> rfl
  · split
    · rfl
    · split <;> rfl
  · rfl
  · exact (AddrSpaces.memmove_frame C m _ _ _).2.1

theorem AddrSpaces.run_append (C : Consts) (m : AddrSpaces) (a b : List Syscall) :
    m.run C (a ++ b) = (m.run C a).run C b := by
  simp [AddrSpaces.run, List.foldl_append]

theorem AddrSpaces.run_self (C : Consts) (cs : List Syscall) :
    ∀ m : AddrSpaces, (m.run C cs).self = m.self := by
  induction cs with
  | nil => intro m; rfl
  | cons c cs ih =>
    intro m
    show (((m.step C c).1).run C cs).self = m.self
    rw [ih, AddrSpaces.step_self]

theorem set_pte_get (m : AddrSpaces) (e vpn : Nat) (w : Option Nat) (e' vpn' : Nat) :
    (m.set_pte e vpn w).pt e' vpn' = if e' = e ∧ vpn' = vpn then w else m.pt e' vpn' := by
  unfold AddrSpaces.set_pte
  by_cases he : e' = e
  · subst he
    by_cases hv : vpn' = vpn
    · subst hv; simp
    · simp [hv, Function.update_noteq hv]
  · simp [he, Function.update_noteq he]

theorem entry_perm (C : Consts) (p perm : Nat) (h : perm < C.PGSIZE) :
    (p * C.PGSIZE + perm) % C.PGSIZE = perm ∧ (p * C.PGSIZE + perm) / C.PGSIZE = p := by
  have hpos : 0 < C.PGSIZE := by omega
  constructor
  · rw [Nat.add_comm, Nat.add_mul_mod_self_right, Nat.mod_eq_of_lt h]
  · rw [Nat.add_comm, Nat.add_mul_div_right _ _ hpos, Nat.div_eq_of_lt h, Nat.zero_add]

/-- One call whose permission word is in order keeps the sharing invariant. -/
theorem CowInv_step (C : Consts) (m : AddrSpaces) (c : Syscall) (hc : c.permOk C)
    (hm : CowInv C m) : CowInv C (m.step C c).1 := by
  cases c with
  | sys_page_alloc envid va perm =>
    simp only [AddrSpaces.step]
    split
    · exact hm
    · rename_i hok
      intro e vpn w hw
      have hw' : (m.set_pte (m.target envid) (va / C.PGSIZE)
          (some (m.next_free * C.PGSIZE + perm))).pt e vpn = some w := hw
      rw [set_pte_get] at hw'
      split at hw'
      · cases hw'
        rw [(entry_perm C m.next_free perm (by omega)).1]
        exact hc
      · exact hm e vpn w hw'
  | sys_page_map srcenv srcva dstenv dstva perm =>
    simp only [AddrSpaces.step]
    split
    · exact hm
    · rename_i hok
      split
      · exact hm
      · rename_i w0 _
        intro e vpn w hw
        rw [set_pte_get] at hw
        split at hw
        · cases hw
          rw [(entry_perm C (w0 / C.PGSIZE) perm (by omega)).1]
          exact hc
        · exact hm e vpn w hw
  | sys_page_unmap envid va =>
    simp only [AddrSpaces.step]
    intro e vpn w hw
    rw [set_pte_get] at hw
    split at hw
    · cases hw
    · exact hm e vpn w hw
  | memmove dst src len =>
    simp only [AddrSpaces.step]
    intro e vpn w hw
    rw [(AddrSpaces.memmove_frame C m dst src len).1] at hw
    exact hm e vpn w hw
  | sys_env_set_pgfault_upcall _ _ => exact hm
  | sys_exofork => exact hm
  | sys_env_set_status _ _ => exact hm
  | sys_getenvid => exact hm

theorem CowInv_run (C : Consts) (cs : List Syscall) :
    ∀ m : AddrSpaces, (∀ c ∈ cs, c.permOk C) → CowInv C m → CowInv C (m.run C cs) := by
  induction cs with
  | nil => intro m _ hm; exact hm
  | cons c cs ih =>
    intro m hc hm
    show CowInv C (((m.step C c).1).run C cs)
    exact ih _ (fun c' h' => hc c' (List.mem_cons_of_mem _ h'))
      (CowInv_step C m c (hc c (List.mem_cons_self _ _)) hm)

theorem Issues.drop_plain (C : Consts) (K : UserEnv) (s t : UserLib) (g : Prop)
    (h : Issues C K s t g) : ∀ c ∈ t.calls.drop s.calls.length, c.plain C := by
  obtain ⟨new, e, p, _⟩ := h
  intro c hc
  rw [e] at hc
  simp only [List.drop_left'] at hc
  exact p c (by simpa using hc)

/-- C13: with the x86 permission bits, every permission word that `pgfault`, `duppage`,
`duppage2`, `set_pgfault_handler` and `fork` (the allocation of the exception stack of
the child included) pass to `sys_page_alloc` or `sys_page_map` is free of the combination
PTE_COW with PTE_W; and address spaces in which no mapping of any process carries both
bits are still so after any sequence of such calls. -/
theorem cow_invariant (C : Consts) (hX : C.X86) (U : UserConsts) (K : UserEnv)
    (s : UserLib) :
    (∀ utf, ∀ c ∈ (pgfault C U K s utf).state.calls.drop s.calls.length, c.permOk C) ∧
      (∀ envid pn,
        ∀ c ∈ (duppage C K s envid pn).state.calls.drop s.calls.length, c.permOk C) ∧
      (∀ dstenv addr,
        ∀ c ∈ (duppage2 C U K s dstenv addr).state.calls.drop s.calls.length, c.permOk C) ∧
      (∀ upcall h,
        ∀ c ∈ (set_pgfault_handler C upcall K.reply s h).state.calls.drop s.calls.length,
          c.permOk C) ∧
      (∀ c ∈ (fork C U K s).state.calls.drop s.calls.length, c.permOk C) ∧
      (∀ (m : AddrSpaces) (cs : List Syscall),
        (∀ c ∈ cs, c.permOk C) → CowInv C m → CowInv C (m.run C cs)) := by
  refine ⟨?_, ?_, ?_, ?_, ?_, fun m cs => CowInv_run C cs m⟩
  · intro utf c hc
    exact (Issues.drop_plain C K _ _ _ (pgfault_issues C hX U K s utf) c hc).1
  · intro envid pn c hc
    exact (Issues.drop_plain C K _ _ _ (duppage_issues C hX K s envid pn).1 c hc).1
  · intro dstenv addr c hc
    exact (Issues.drop_plain C K _ _ _ (duppage2_issues C hX U K s dstenv addr) c hc).1
  · intro upcall h c hc
    exact (Issues.drop_plain C K _ _ _ (set_pgfault_handler_issues C hX K upcall s h) c hc).1
  · intro c hc
    rcases fork_shape C hX U K s with hi | ⟨s5, ch, ⟨body, e5, p5, _⟩, e⟩
    · exact (Issues.drop_plain C K _ _ _ hi c hc).1
    · rw [e, e5, List.append_assoc] at hc
      simp only [List.drop_left'] at hc
      have hc' : c ∈ body ++ [Syscall.sys_env_set_status ch ENV_RUNNABLE] := by
        simpa using hc
      rcases List.mem_append.mp hc' with h | h
      · exact (p5 c h).1
      · have : c = Syscall.sys_env_set_status ch ENV_RUNNABLE := by simpa using h
        rw [this]; trivial

theorem AddrSpaces.run_snoc (C : Consts) (m : AddrSpaces) (cs : List Syscall) (c : Syscall) :
    m.run C (cs ++ [c]) = ((m.run C cs).step C c).1 := by
  rw [AddrSpaces.run_append]; rfl

/-- A mapping call whose addresses are aligned, whose permission word fits and whose
source is mapped succeeds and installs the source page with the given permissions. -/
theorem step_map_ok (C : Consts) (m : AddrSpaces) (se sva de dva perm w : Nat)
    (h1 : sva % C.PGSIZE = 0) (h2 : dva % C.PGSIZE = 0) (h3 : perm < C.PGSIZE)
    (hw : m.pt (m.target se) (sva / C.PGSIZE) = some w) :
    m.step C (Syscall.sys_page_map se sva de dva perm) =
      (m.set_pte (m.target de) (dva / C.PGSIZE) (some (w / C.PGSIZE * C.PGSIZE + perm)), 0) := by
  simp only [AddrSpaces.step]
  rw [if_neg (by omega)]
  simp only [hw]

theorem page_va (C : Consts) (pn : Nat) (hpos : 0 < C.PGSIZE) (hpn : pn * C.PGSIZE < 2 ^ 32) :
    (pn * C.PGSIZE) % 2 ^ 32 % C.PGSIZE = 0 ∧ (pn * C.PGSIZE) % 2 ^ 32 / C.PGSIZE = pn := by
  rw [Nat.mod_eq_of_lt hpn]
  exact ⟨Nat.mul_mod_left _ _, Nat.mul_div_cancel _ hpos⟩

theorem target_zero (m : AddrSpaces) : m.target 0 = m.self := by
  simp [AddrSpaces.target]

/-- C11: for a present entry of the parent with PTE_W or PTE_COW set, a `duppage` that
returns has issued two mapping calls, for the child first and for the parent itself
second; after the first the child maps page pn to the physical page of the parent, and at
the end both the child and the parent map page pn to that same physical page with
permissions exactly PTE_P|PTE_U|PTE_COW, in which PTE_COW is set and PTE_W is clear. -/
theorem duppage_cow (C : Consts) (hX : C.X86) (K : UserEnv) (m0 : AddrSpaces) (s t : UserLib)
    (child pn w : Nat) (r : Int) (hK2 : K.vpt = m0.vpt C)
    (hpn : pn * C.PGSIZE < 2 ^ 32)
    (hw : (m0.run C s.calls).pt (m0.run C s.calls).self pn = some w)
    (hbits : w &&& C.PTE_W ≠ 0 ∨ w &&& PTE_COW ≠ 0)
    (hok : duppage C K s child pn = .ok r t) :
    t.calls = s.calls ++
        [Syscall.sys_page_map 0 ((pn * C.PGSIZE) % 2 ^ 32) child ((pn * C.PGSIZE) % 2 ^ 32)
            (C.PTE_P ||| C.PTE_U ||| PTE_COW),
          Syscall.sys_page_map 0 ((pn * C.PGSIZE) % 2 ^ 32) 0 ((pn * C.PGSIZE) % 2 ^ 32)
            (C.PTE_P ||| C.PTE_U ||| PTE_COW)] ∧
      (m0.run C (s.calls ++
          [Syscall.sys_page_map 0 ((pn * C.PGSIZE) % 2 ^ 32) child
            ((pn * C.PGSIZE) % 2 ^ 32) (C.PTE_P ||| C.PTE_U ||| PTE_COW)])).pt
          ((m0.run C s.calls).target child) pn
        = some (w / C.PGSIZE * C.PGSIZE + (C.PTE_P ||| C.PTE_U ||| PTE_COW)) ∧
      (m0.run C t.calls).pt ((m0.run C s.calls).target child) pn
        = some (w / C.PGSIZE * C.PGSIZE + (C.PTE_P ||| C.PTE_U ||| PTE_COW)) ∧
      (m0.run C t.calls).pt (m0.run C s.calls).self pn
        = some (w / C.PGSIZE * C.PGSIZE + (C.PTE_P ||| C.PTE_U ||| PTE_COW)) ∧
      (w / C.PGSIZE * C.PGSIZE + (C.PTE_P ||| C.PTE_U ||| PTE_COW)) / C.PGSIZE
        = w / C.PGSIZE ∧
      (w / C.PGSIZE * C.PGSIZE + (C.PTE_P ||| C.PTE_U ||| PTE_COW)) % C.PGSIZE
        = C.PTE_P ||| C.PTE_U ||| PTE_COW ∧
      (C.PTE_P ||| C.PTE_U ||| PTE_COW) &&& PTE_COW ≠ 0 ∧
      (C.PTE_P ||| C.PTE_U ||| PTE_COW) &&& C.PTE_W = 0 := by
  obtain ⟨hP, hW, hU, hPG⟩ := hX
  have hpos : 0 < C.PGSIZE := by omega
  have hperm : C.PTE_P ||| C.PTE_U ||| PTE_COW < C.PGSIZE := by
    rw [hP, hU, hPG]; decide
  obtain ⟨hal, hdiv⟩ := page_va C pn hpos hpn
  obtain ⟨hem, hed⟩ := entry_perm C (w / C.PGSIZE) _ hperm
  -- the two calls
  have hcalls : t.calls = s.calls ++
      [Syscall.sys_page_map 0 ((pn * C.PGSIZE) % 2 ^ 32) child ((pn * C.PGSIZE) % 2 ^ 32)
          (C.PTE_P ||| C.PTE_U ||| PTE_COW),
        Syscall.sys_page_map 0 ((pn * C.PGSIZE) % 2 ^ 32) 0 ((pn * C.PGSIZE) % 2 ^ 32)
          (C.PTE_P ||| C.PTE_U ||| PTE_COW)] := by
    have hv : K.vpt s.calls pn = w := by rw [hK2]; simp [AddrSpaces.vpt, hw]
    unfold duppage at hok
    simp only [hv, hbits, if_true] at hok
    split at hok
    · cases hok
    · split at hok
      · cases hok
      · cases hok
        simp [UserLib.issue]
  -- the state after the first call
  have hstep1 := step_map_ok C (m0.run C s.calls) 0 ((pn * C.PGSIZE) % 2 ^ 32) child
    ((pn * C.PGSIZE) % 2 ^ 32) _ w hal hal hperm
    (by rw [target_zero, hdiv]; exact hw)
  have hmid : m0.run C (s.calls ++
      [Syscall.sys_page_map 0 ((pn * C.PGSIZE) % 2 ^ 32) child ((pn * C.PGSIZE) % 2 ^ 32)
        (C.PTE_P ||| C.PTE_U ||| PTE_COW)]) =
      (m0.run C s.calls).set_pte ((m0.run C s.calls).target child) pn
        (some (w / C.PGSIZE * C.PGSIZE + (C.PTE_P ||| C.PTE_U ||| PTE_COW))) := by
    rw [AddrSpaces.run_snoc, hstep1, hdiv]
  -- the source of the second call
  have hsrc : ∃ w1, ((m0.run C s.calls).set_pte ((m0.run C s.calls).target child) pn
        (some (w / C.PGSIZE * C.PGSIZE + (C.PTE_P ||| C.PTE_U ||| PTE_COW)))).pt
          (m0.run C s.calls).self pn = some w1 ∧ w1 / C.PGSIZE = w / C.PGSIZE := by
    rw [set_pte_get]
    split
    · exact ⟨_, rfl, hed⟩
    · exact ⟨w, hw, rfl⟩
  obtain ⟨w1, hw1, hw1d⟩ := hsrc
  have hstep2 := step_map_ok C ((m0.run C s.calls).set_pte ((m0.run C s.calls).target child)
    pn (some (w / C.PGSIZE * C.PGSIZE + (C.PTE_P ||| C.PTE_U ||| PTE_COW)))) 0
    ((pn * C.PGSIZE) % 2 ^ 32) 0 ((pn * C.PGSIZE) % 2 ^ 32) _ w1 hal hal hperm
    (by rw [hdiv]; exact hw1)
  have hend : m0.run C t.calls =
      ((m0.run C s.calls).set_pte ((m0.run C s.calls).target child) pn
        (some (w / C.PGSIZE * C.PGSIZE + (C.PTE_P ||| C.PTE_U ||| PTE_COW)))).set_pte
          (m0.run C s.calls).self pn
          (some (w / C.PGSIZE * C.PGSIZE + (C.PTE_P ||| C.PTE_U ||| PTE_COW))) := by
    rw [hcalls, show ∀ (a b : Syscall), s.calls ++ [a, b] = (s.calls ++ [a]) ++ [b] from
      fun a b => by simp, AddrSpaces.run_snoc, hmid, hstep2, hdiv, hw1d]
    rfl
  refine ⟨hcalls, ?_, ?_, ?_, hed, hem, ?_, ?_⟩
  · rw [hmid, set_pte_get]; simp
  · rw [hend, set_pte_get, set_pte_get]
    split
    · rfl
    · simp
  · rw [hend, set_pte_get]; simp
  · rw [hP, hU]; decide
  · rw [hP, hU, hW]; decide

theorem duppage_cow_witness :
    (demoMem.run jos (UserLib.mk 0
        [Syscall.sys_page_map 0 0x800000 0x1002 0x800000 0x805,
          Syscall.sys_page_map 0 0x800000 0 0x800000 0x805]).calls).pt
        (demoMem.run jos (UserLib.mk 0 []).calls).self 0x800
      = some ((5 * 4096 + 0x805) / jos.PGSIZE * jos.PGSIZE
          + (jos.PTE_P ||| jos.PTE_U ||| PTE_COW)) :=
  (duppage_cow jos (by decide) demoEnv demoMem (UserLib.mk 0 [])
    (UserLib.mk 0 [Syscall.sys_page_map 0 0x800000 0x1002 0x800000 0x805,
      Syscall.sys_page_map 0 0x800000 0 0x800000 0x805])
    0x1002 0x800 (5 * 4096 + 0x805) 0 rfl (by decide) (by decide) (by decide)
    (by decide)).2.2.2.1

/-- C12 as stated fails for an entry that carries a bit beyond PTE_P and PTE_U: page
0x801 of the caller is mapped with permissions PTE_P|PTE_U|0x400, neither PTE_W nor
PTE_COW; `duppage` maps it into the child 0x1002 with permissions PTE_P|PTE_U, which are
not the permissions of the parent. -/
theorem duppage_drops_other_bits :
    demoMem.pt demoMem.self 0x801 = some (6 * 4096 + 0x405) ∧
      (6 * 4096 + 0x405) &&& jos.PTE_W = 0 ∧ (6 * 4096 + 0x405) &&& PTE_COW = 0 ∧
      duppage jos demoEnv ⟨0, []⟩ 0x1002 0x801
        = .ok 0 ⟨0, [Syscall.sys_page_map 0 0x801000 0x1002 0x801000 5]⟩ ∧
      (demoMem.run jos [Syscall.sys_page_map 0 0x801000 0x1002 0x801000 5]).pt 0x1002 0x801
        = some (6 * 4096 + 5) ∧
      (6 * 4096 + 5) % jos.PGSIZE ≠ (6 * 4096 + 0x405) % jos.PGSIZE := by
  refine ⟨by decide, by decide, by decide, by decide, by decide, by decide⟩

/-- C12, amended: for a present entry of the parent with neither PTE_W nor PTE_COW set and
a child other than the caller, a `duppage` that returns has issued one mapping call; the
child then maps page pn to the physical page of the parent with permissions exactly
PTE_U|PTE_P, which makes its entry equal to that of the parent when the permissions of
the parent are exactly PTE_U|PTE_P; the mapping of the parent, and every mapping other
than that of page pn in the child, is untouched. -/
theorem duppage_readonly (C : Consts) (hX : C.X86) (K : UserEnv) (m0 : AddrSpaces)
    (s t : UserLib) (child pn w : Nat) (r : Int) (hK2 : K.vpt = m0.vpt C)
    (hpn : pn * C.PGSIZE < 2 ^ 32)
    (hw : (m0.run C s.calls).pt (m0.run C s.calls).self pn = some w)
    (hbits : w &&& C.PTE_W = 0 ∧ w &&& PTE_COW = 0)
    (hchild : (m0.run C s.calls).target child ≠ (m0.run C s.calls).self)
    (hok : duppage C K s child pn = .ok r t) :
    t.calls = s.calls ++
        [Syscall.sys_page_map 0 ((pn * C.PGSIZE) % 2 ^ 32) child ((pn * C.PGSIZE) % 2 ^ 32)
          (C.PTE_U ||| C.PTE_P)] ∧
      (m0.run C t.calls).pt ((m0.run C s.calls).target child) pn
        = some (w / C.PGSIZE * C.PGSIZE + (C.PTE_U ||| C.PTE_P)) ∧
      (w / C.PGSIZE * C.PGSIZE + (C.PTE_U ||| C.PTE_P)) / C.PGSIZE = w / C.PGSIZE ∧
      (w / C.PGSIZE * C.PGSIZE + (C.PTE_U ||| C.PTE_P)) % C.PGSIZE = C.PTE_U ||| C.PTE_P ∧
      (w % C.PGSIZE = C.PTE_U ||| C.PTE_P →
        (m0.run C t.calls).pt ((m0.run C s.calls).target child) pn = some w) ∧
      (m0.run C t.calls).pt (m0.run C s.calls).self pn = some w ∧
      (∀ e vpn, ¬ (e = (m0.run C s.calls).target child ∧ vpn = pn) →
        (m0.run C t.calls).pt e vpn = (m0.run C s.calls).pt e vpn) := by
  obtain ⟨hP, hW, hU, hPG⟩ := hX
  have hpos : 0 < C.PGSIZE := by omega
  have hperm : C.PTE_U ||| C.PTE_P < C.PGSIZE := by
    rw [hP, hU, hPG]; decide
  obtain ⟨hal, hdiv⟩ := page_va C pn hpos hpn
  obtain ⟨hem, hed⟩ := entry_perm C (w / C.PGSIZE) _ hperm
  have hcalls : t.calls = s.calls ++
      [Syscall.sys_page_map 0 ((pn * C.PGSIZE) % 2 ^ 32) child ((pn * C.PGSIZE) % 2 ^ 32)
        (C.PTE_U ||| C.PTE_P)] := by
    have hv : K.vpt s.calls pn = w := by rw [hK2]; simp [AddrSpaces.vpt, hw]
    unfold duppage at hok
    simp only [hv, hbits.1, hbits.2, ne_eq, not_true_eq_false, or_self, if_false] at hok
    split at hok
    · cases hok
    · cases hok
      simp [UserLib.issue]
  have hstep1 := step_map_ok C (m0.run C s.calls) 0 ((pn * C.PGSIZE) % 2 ^ 32) child
    ((pn * C.PGSIZE) % 2 ^ 32) _ w hal hal hperm
    (by rw [target_zero, hdiv]; exact hw)
  have hend : m0.run C t.calls =
      (m0.run C s.calls).set_pte ((m0.run C s.calls).target child) pn
        (some (w / C.PGSIZE * C.PGSIZE + (C.PTE_U ||| C.PTE_P))) := by
    rw [hcalls, AddrSpaces.run_snoc, hstep1, hdiv]
  refine ⟨hcalls, ?_, hed, hem, ?_, ?_, ?_⟩
  · rw [hend, set_pte_get]; simp
  · intro hsame
    rw [hend, set_pte_get, ← hsame]
    simp only [and_self, if_true]
    rw [Nat.mul_comm, Nat.div_add_mod]
  · rw [hend, set_pte_get, if_neg (fun h => hchild h.1.symm)]
    exact hw
  · intro e vpn hne
    rw [hend, set_pte_get, if_neg hne]

theorem duppage_readonly_witness :
    (demoMem.run jos (UserLib.mk 0
        [Syscall.sys_page_map 0 0x801000 0x1002 0x801000 5]).calls).pt
        (demoMem.run jos (UserLib.mk 0 []).calls).self 0x801
      = some (6 * 4096 + 0x405) :=
  (duppage_readonly jos (by decide) demoEnv demoMem (UserLib.mk 0 [])
    (UserLib.mk 0 [Syscall.sys_page_map 0 0x801000 0x1002 0x801000 5])
    0x1002 0x801 (6 * 4096 + 0x405) 0 rfl (by decide) (by decide) (by decide) (by decide)
    (by decide)).2.2.2.2.2.1

theorem aligned_add (PG dst i : Nat) (hd : dst % PG = 0) (hi : i < PG) :
    (dst + i) / PG = dst / PG ∧ (dst + i) % PG = i := by
  have hpos : 0 < PG := by omega
  obtain ⟨q, hq⟩ : ∃ q, dst = PG * q := ⟨dst / PG, by
    have := Nat.div_add_mod dst PG
    omega⟩
  subst hq
  constructor
  · rw [Nat.mul_add_div hpos, Nat.div_eq_of_lt hi, Nat.add_zero, Nat.mul_div_cancel_left _ hpos]
  · rw [Nat.mul_add_mod, Nat.mod_eq_of_lt hi]

theorem rounddown_aligned (a PG : Nat) (hpos : 0 < PG) :
    ROUNDDOWN a PG % PG = 0 ∧ ROUNDDOWN a PG / PG = a / PG := by
  have h : ROUNDDOWN a PG = PG * (a / PG) := by
    unfold ROUNDDOWN
    have := Nat.div_add_mod a PG
    omega
  rw [h]
  exact ⟨Nat.mul_mod_right _ _, Nat.mul_div_cancel_left _ hpos⟩

theorem write_mapped (C : Consts) (m : AddrSpaces) (va b w : Nat)
    (hmap : m.pt m.self (va / C.PGSIZE) = some w) (hwr : (w % C.PGSIZE) &&& C.PTE_W ≠ 0) :
    (m.write C va b).phys =
      Function.update m.phys (w / C.PGSIZE)
        (Function.update (m.phys (w / C.PGSIZE)) (va % C.PGSIZE) b) := by
  unfold AddrSpaces.write
  simp only [hmap, hwr, ne_eq, not_false_eq_true, if_true]

/-- The bytes after the first n writes of a copy into a page-aligned destination that is
mapped writable. -/
theorem fold_write_page (C : Consts) (m : AddrSpaces) (dst wd : Nat) (g : Nat → Nat)
    (hd : dst % C.PGSIZE = 0) (hmap : m.pt m.self (dst / C.PGSIZE) = some wd)
    (hwr : (wd % C.PGSIZE) &&& C.PTE_W ≠ 0) :
    ∀ n, n ≤ C.PGSIZE →
      ((List.range n).foldl (fun acc i => acc.write C (dst + i) (g i)) m).phys =
        fun p off =>
          if p = wd / C.PGSIZE ∧ off < n then g off else m.phys p off := by
  intro n
  induction n with
  | zero => intro _; funext p off; simp
  | succ n ih =>
    intro hn
    have ihn := ih (by omega)
    obtain ⟨f1, f2, _⟩ := AddrSpaces.fold_write_frame C (fun i => dst + i) g (List.range n) m
    obtain ⟨a1, a2⟩ := aligned_add C.PGSIZE dst n hd (by omega)
    rw [List.range_succ, List.foldl_append]
    simp only [List.foldl_cons, List.foldl_nil]
    rw [write_mapped C _ (dst + n) (g n) wd (by rw [f1, f2, a1]; exact hmap) hwr, ihn, a2]
    funext p off
    by_cases hp : p = wd / C.PGSIZE
    · subst hp
      by_cases ho : off = n
      · subst ho; simp
      · simp only [Function.update_same, Function.update_noteq ho, true_and]
        by_cases hlt : off < n
        · simp [hlt, Nat.lt_succ_of_lt hlt]
        · have : ¬ off < n + 1 := by omega
          simp [hlt, this]
    · simp [Function.update_noteq hp, hp]

/-- A whole-page copy into a writable page: the destination page holds the bytes read at
the source, every other physical page is as before. -/
theorem memmove_page (C : Consts) (m : AddrSpaces) (dst src wd : Nat)
    (hd : dst % C.PGSIZE = 0) (hmap : m.pt m.self (dst / C.PGSIZE) = some wd)
    (hwr : (wd % C.PGSIZE) &&& C.PTE_W ≠ 0) :
    (m.memmove C dst src C.PGSIZE).phys =
      fun p off =>
        if p = wd / C.PGSIZE ∧ off < C.PGSIZE then m.read C (src + off) else m.phys p off :=
  fold_write_page C m dst wd (fun i => m.read C (src + i)) hd hmap hwr C.PGSIZE (le_refl _)

theorem step_alloc (C : Consts) (m : AddrSpaces) (e va perm : Nat) :
    ((m.step C (Syscall.sys_page_alloc e va perm)).2 = 0 →
        va % C.PGSIZE = 0 ∧ perm < C.PGSIZE) ∧
      (va % C.PGSIZE = 0 → perm < C.PGSIZE →
        m.step C (Syscall.sys_page_alloc e va perm) =
          ({ self := m.self
             pt := (m.set_pte (m.target e) (va / C.PGSIZE)
               (some (m.next_free * C.PGSIZE + perm))).pt
             phys := Function.update m.phys m.next_free (fun _ => 0)
             next_free := m.next_free + 1 }, 0)) := by
  constructor
  · intro h
    simp only [AddrSpaces.step] at h
    split at h
    · simp at h
    · omega
  · intro h1 h2
    simp only [AddrSpaces.step]
    rw [if_neg (by omega)]
    rfl

/-- The calls of a `pgfault` that returns. -/
theorem pgfault_ok_calls (C : Consts) (U : UserConsts) (K : UserEnv) (s t : UserLib)
    (utf : UTrapframe) (hok : pgfault C U K s utf = .ok t) :
    t.calls = s.calls ++
        [Syscall.sys_page_alloc 0 U.PFTEMP (C.PTE_U ||| C.PTE_P ||| C.PTE_W),
          Syscall.memmove U.PFTEMP (ROUNDDOWN utf.utf_fault_va C.PGSIZE) C.PGSIZE,
          Syscall.sys_page_map 0 U.PFTEMP 0 (ROUNDDOWN utf.utf_fault_va C.PGSIZE)
            (C.PTE_U ||| C.PTE_P ||| C.PTE_W),
          Syscall.sys_page_unmap 0 U.PFTEMP] ∧
      K.reply s.calls
        (Syscall.sys_page_alloc 0 U.PFTEMP (C.PTE_U ||| C.PTE_P ||| C.PTE_W)) = 0 ∧
      utf.utf_err &&& U.FEC_WR ≠ 0 ∧
      K.vpt s.calls (VPN C utf.utf_fault_va) &&& PTE_COW ≠ 0 := by
  unfold pgfault at hok
  simp only at hok
  split at hok
  · cases hok
  · rename_i h1
    split at hok
    · cases hok
    · rename_i h2
      split at hok
      · cases hok
      · rename_i h3
        split at hok
        · cases hok
        · split at hok
          · cases hok
          · cases hok
            refine ⟨by simp [UserLib.issue], ?_, h1, h2⟩
            exact not_not.mp h3

/-- The address spaces after a `pgfault` that returns, in the modelled kernel: the
mappings, and the bytes of every physical page. -/
theorem pgfault_model_end (C : Consts) (hX : C.X86) (U : UserConsts) (K : UserEnv)
    (m0 : AddrSpaces) (s t : UserLib) (utf : UTrapframe) (hK1 : K.reply = m0.reply C)
    (hok : pgfault C U K s utf = .ok t) :
    (∀ e vpn, (m0.run C t.calls).pt e vpn =
        if e = (m0.run C s.calls).self ∧ vpn = U.PFTEMP / C.PGSIZE then none
        else if e = (m0.run C s.calls).self ∧ vpn = utf.utf_fault_va / C.PGSIZE then
          some ((m0.run C s.calls).next_free * C.PGSIZE + (C.PTE_U ||| C.PTE_P ||| C.PTE_W))
        else (m0.run C s.calls).pt e vpn) ∧
      (∀ p off, (m0.run C t.calls).phys p off =
        if p = (m0.run C s.calls).next_free ∧ off < C.PGSIZE then
          match (if utf.utf_fault_va / C.PGSIZE = U.PFTEMP / C.PGSIZE then
              some ((m0.run C s.calls).next_free * C.PGSIZE
                + (C.PTE_U ||| C.PTE_P ||| C.PTE_W))
            else (m0.run C s.calls).pt (m0.run C s.calls).self
              (utf.utf_fault_va / C.PGSIZE)) with
          | some w =>
            if w / C.PGSIZE = (m0.run C s.calls).next_free then 0
            else (m0.run C s.calls).phys (w / C.PGSIZE) off
          | none => 0
        else if p = (m0.run C s.calls).next_free then 0
        else (m0.run C s.calls).phys p off) := by
  obtain ⟨hcalls, hr1, _, _⟩ := pgfault_ok_calls C U K s t utf hok
  obtain ⟨hP, hW, hU, hPG⟩ := hX
  have hpos : 0 < C.PGSIZE := by omega
  have hperm : C.PTE_U ||| C.PTE_P ||| C.PTE_W < C.PGSIZE := by
    rw [hP, hU, hW, hPG]; decide
  have hwbit : (C.PTE_U ||| C.PTE_P ||| C.PTE_W) &&& C.PTE_W ≠ 0 := by
    rw [hP, hU, hW]; decide
  rw [hK1] at hr1
  have hal : U.PFTEMP % C.PGSIZE = 0 :=
    ((step_alloc C (m0.run C s.calls) 0 U.PFTEMP _).1 hr1).1
  obtain ⟨hra, hrd⟩ := rounddown_aligned utf.utf_fault_va C.PGSIZE hpos
  obtain ⟨hem, hed⟩ := entry_perm C (m0.run C s.calls).next_free _ hperm
  -- the four steps
  have e1 := (step_alloc C (m0.run C s.calls) 0 U.PFTEMP
    (C.PTE_U ||| C.PTE_P ||| C.PTE_W)).2 hal hperm
  rw [target_zero] at e1
  have hM1self : ((m0.run C s.calls).step C (Syscall.sys_page_alloc 0 U.PFTEMP
      (C.PTE_U ||| C.PTE_P ||| C.PTE_W))).1.self = (m0.run C s.calls).self := by rw [e1]
  have hM1pt : ((m0.run C s.calls).step C (Syscall.sys_page_alloc 0 U.PFTEMP
      (C.PTE_U ||| C.PTE_P ||| C.PTE_W))).1.pt = ((m0.run C s.calls).set_pte
      (m0.run C s.calls).self (U.PFTEMP / C.PGSIZE)
      (some ((m0.run C s.calls).next_free * C.PGSIZE
        + (C.PTE_U ||| C.PTE_P ||| C.PTE_W)))).pt := by rw [e1]
  have hM1phys : ((m0.run C s.calls).step C (Syscall.sys_page_alloc 0 U.PFTEMP
      (C.PTE_U ||| C.PTE_P ||| C.PTE_W))).1.phys = Function.update (m0.run C s.calls).phys
      (m0.run C s.calls).next_free (fun _ => 0) := by rw [e1]
  clear e1
  obtain ⟨M1, hM1def⟩ : ∃ M1, ((m0.run C s.calls).step C (Syscall.sys_page_alloc 0 U.PFTEMP
      (C.PTE_U ||| C.PTE_P ||| C.PTE_W))).1 = M1 := ⟨_, rfl⟩
  rw [hM1def] at hM1self hM1pt hM1phys
  have hM1map : M1.pt M1.self (U.PFTEMP / C.PGSIZE)
      = some ((m0.run C s.calls).next_free * C.PGSIZE
        + (C.PTE_U ||| C.PTE_P ||| C.PTE_W)) := by
    rw [hM1pt, hM1self, set_pte_get]; simp
  obtain ⟨f1, f2, _⟩ := AddrSpaces.memmove_frame C M1 U.PFTEMP
    (ROUNDDOWN utf.utf_fault_va C.PGSIZE) C.PGSIZE
  have e3 := step_map_ok C (M1.memmove C U.PFTEMP (ROUNDDOWN utf.utf_fault_va C.PGSIZE)
    C.PGSIZE) 0 U.PFTEMP 0 (ROUNDDOWN utf.utf_fault_va C.PGSIZE)
    (C.PTE_U ||| C.PTE_P ||| C.PTE_W) _ hal hra hperm
    (by rw [target_zero, f1, f2]; exact hM1map)
  rw [target_zero, hed, hrd, f2, hM1self] at e3
  have hrun4 :
      ((((M1.step C (Syscall.memmove U.PFTEMP (ROUNDDOWN utf.utf_fault_va C.PGSIZE)
        C.PGSIZE)).1.step C (Syscall.sys_page_map 0 U.PFTEMP 0
          (ROUNDDOWN utf.utf_fault_va C.PGSIZE) (C.PTE_U ||| C.PTE_P ||| C.PTE_W))).1).step C
            (Syscall.sys_page_unmap 0 U.PFTEMP)).1 =
      (((M1.memmove C U.PFTEMP (ROUNDDOWN utf.utf_fault_va C.PGSIZE) C.PGSIZE).set_pte
        (m0.run C s.calls).self (utf.utf_fault_va / C.PGSIZE)
        (some ((m0.run C s.calls).next_free * C.PGSIZE
          + (C.PTE_U ||| C.PTE_P ||| C.PTE_W)))).set_pte
        (m0.run C s.calls).self (U.PFTEMP / C.PGSIZE) none) := by
    have hmm : (M1.step C (Syscall.memmove U.PFTEMP (ROUNDDOWN utf.utf_fault_va C.PGSIZE)
        C.PGSIZE)).1 = M1.memmove C U.PFTEMP (ROUNDDOWN utf.utf_fault_va C.PGSIZE)
          C.PGSIZE := rfl
    rw [hmm, e3]
    simp only [AddrSpaces.step, AddrSpaces.target, if_true, AddrSpaces.set_pte, f2, hM1self]
  have hrun : m0.run C t.calls =
      (((M1.memmove C U.PFTEMP (ROUNDDOWN utf.utf_fault_va C.PGSIZE) C.PGSIZE).set_pte
        (m0.run C s.calls).self (utf.utf_fault_va / C.PGSIZE)
        (some ((m0.run C s.calls).next_free * C.PGSIZE
          + (C.PTE_U ||| C.PTE_P ||| C.PTE_W)))).set_pte
        (m0.run C s.calls).self (U.PFTEMP / C.PGSIZE) none) := by
    rw [hcalls, show ∀ (a b c d : Syscall),
      s.calls ++ [a, b, c, d] = (((s.calls ++ [a]) ++ [b]) ++ [c]) ++ [d] from
        fun a b c d => by simp,
      AddrSpaces.run_snoc, AddrSpaces.run_snoc, AddrSpaces.run_snoc, AddrSpaces.run_snoc,
      hM1def]
    exact hrun4
  constructor
  · intro e vpn
    rw [hrun]
    simp only [set_pte_get, f1, hM1pt]
    by_cases h1 : e = (m0.run C s.calls).self ∧ vpn = U.PFTEMP / C.PGSIZE
    · simp [h1]
    · simp only [h1, if_false]
  · intro p off
    rw [hrun]
    show (M1.memmove C U.PFTEMP (ROUNDDOWN utf.utf_fault_va C.PGSIZE) C.PGSIZE).phys p off = _
    rw [memmove_page C M1 U.PFTEMP (ROUNDDOWN utf.utf_fault_va C.PGSIZE) _ hal hM1map
      (by rw [hem]; exact hwbit), hed, hM1phys]
    simp only
    by_cases hp : p = (m0.run C s.calls).next_free ∧ off < C.PGSIZE
    · obtain ⟨a1, a2⟩ := aligned_add C.PGSIZE (ROUNDDOWN utf.utf_fault_va C.PGSIZE) off
        hra hp.2
      rw [if_pos hp, if_pos hp]
      unfold AddrSpaces.read
      rw [hM1pt, hM1self, hM1phys, a1, a2, hrd, set_pte_get]
      simp only [true_and]
      split
      · rename_i w hw
        by_cases hq : w / C.PGSIZE = (m0.run C s.calls).next_free
        · simp [hq]
        · simp [hq, Function.update_noteq hq]
      · rfl
    · rw [if_neg hp, if_neg hp]
      by_cases hq : p = (m0.run C s.calls).next_free
      · simp [hq]
      · simp [hq, Function.update_noteq hq]

/-- In the modelled kernel a write fault on a copy-on-write page, with PFTEMP page
aligned, is handled to the end: the three system calls succeed. -/
theorem pgfault_model_ok (C : Consts) (hX : C.X86) (U : UserConsts) (K : UserEnv)
    (m0 : AddrSpaces) (s : UserLib) (utf : UTrapframe) (hK1 : K.reply = m0.reply C)
    (hK2 : K.vpt = m0.vpt C) (herr : utf.utf_err &&& U.FEC_WR ≠ 0)
    (hcow : m0.vpt C s.calls (VPN C utf.utf_fault_va) &&& PTE_COW ≠ 0)
    (hal : U.PFTEMP % C.PGSIZE = 0) :
    pgfault C U K s utf =
      .ok ((((s.issue
        (Syscall.sys_page_alloc 0 U.PFTEMP (C.PTE_U ||| C.PTE_P ||| C.PTE_W))).issue
        (Syscall.memmove U.PFTEMP (ROUNDDOWN utf.utf_fault_va C.PGSIZE) C.PGSIZE)).issue
        (Syscall.sys_page_map 0 U.PFTEMP 0 (ROUNDDOWN utf.utf_fault_va C.PGSIZE)
          (C.PTE_U ||| C.PTE_P ||| C.PTE_W))).issue
        (Syscall.sys_page_unmap 0 U.PFTEMP)) := by
  obtain ⟨hP, hW, hU, hPG⟩ := hX
  have hpos : 0 < C.PGSIZE := by omega
  have hperm : C.PTE_U ||| C.PTE_P ||| C.PTE_W < C.PGSIZE := by
    rw [hP, hU, hW, hPG]; decide
  obtain ⟨hra, _⟩ := rounddown_aligned utf.utf_fault_va C.PGSIZE hpos
  have e1 := (step_alloc C (m0.run C s.calls) 0 U.PFTEMP
    (C.PTE_U ||| C.PTE_P ||| C.PTE_W)).2 hal hperm
  have r1 : K.reply s.calls
      (Syscall.sys_page_alloc 0 U.PFTEMP (C.PTE_U ||| C.PTE_P ||| C.PTE_W)) = 0 := by
    rw [hK1]; show ((m0.run C s.calls).step C _).2 = 0; rw [e1]
  have hsrc : ∃ w, (m0.run C ((s.calls ++
      [Syscall.sys_page_alloc 0 U.PFTEMP (C.PTE_U ||| C.PTE_P ||| C.PTE_W)]) ++
      [Syscall.memmove U.PFTEMP (ROUNDDOWN utf.utf_fault_va C.PGSIZE) C.PGSIZE])).pt
        ((m0.run C ((s.calls ++
      [Syscall.sys_page_alloc 0 U.PFTEMP (C.PTE_U ||| C.PTE_P ||| C.PTE_W)]) ++
      [Syscall.memmove U.PFTEMP (ROUNDDOWN utf.utf_fault_va C.PGSIZE) C.PGSIZE])).target 0)
        (U.PFTEMP / C.PGSIZE) = some w := by
    refine ⟨(m0.run C s.calls).next_free * C.PGSIZE + (C.PTE_U ||| C.PTE_P ||| C.PTE_W), ?_⟩
    rw [target_zero, AddrSpaces.run_snoc, AddrSpaces.run_snoc]
    have hmm : ∀ M : AddrSpaces, (M.step C (Syscall.memmove U.PFTEMP
        (ROUNDDOWN utf.utf_fault_va C.PGSIZE) C.PGSIZE)).1 = M.memmove C U.PFTEMP
          (ROUNDDOWN utf.utf_fault_va C.PGSIZE) C.PGSIZE := fun _ => rfl
    rw [hmm, (AddrSpaces.memmove_frame C _ _ _ _).1, (AddrSpaces.memmove_frame C _ _ _ _).2.1,
      e1]
    simp only [target_zero, set_pte_get]
    simp
  obtain ⟨w, hw⟩ := hsrc
  have r3 : K.reply ((s.issue
      (Syscall.sys_page_alloc 0 U.PFTEMP (C.PTE_U ||| C.PTE_P ||| C.PTE_W))).issue
      (Syscall.memmove U.PFTEMP (ROUNDDOWN utf.utf_fault_va C.PGSIZE) C.PGSIZE)).calls
      (Syscall.sys_page_map 0 U.PFTEMP 0 (ROUNDDOWN utf.utf_fault_va C.PGSIZE)
        (C.PTE_U ||| C.PTE_P ||| C.PTE_W)) = 0 := by
    rw [hK1]
    show ((m0.run C ((s.calls ++ _) ++ _)).step C _).2 = 0
    rw [step_map_ok C _ 0 U.PFTEMP 0 (ROUNDDOWN utf.utf_fault_va C.PGSIZE) _ w hal hra hperm hw]
  have r4 : ∀ cs, K.reply cs (Syscall.sys_page_unmap 0 U.PFTEMP) = 0 := by
    intro cs; rw [hK1]; rfl
  have hcow' : K.vpt s.calls (VPN C utf.utf_fault_va) &&& PTE_COW ≠ 0 := by
    rw [hK2]; exact hcow
  unfold pgfault
  simp only [herr, hcow', r1, r3, r4, ne_eq, not_true_eq_false, if_false]

/-- C15 as stated fails for a fault in the scratch page itself: page 0x7ff, the page of
PFTEMP, is mapped copy-on-write; after `pgfault` has handled a write fault at 0x7ff004
with all three system calls successful, that page is not mapped at all. -/
theorem pgfault_scratch_page_lost :
    demoMem.vpt jos [] (VPN jos demoScratchFault.utf_fault_va) &&& PTE_COW ≠ 0 ∧
      demoScratchFault.utf_err &&& demoUser.FEC_WR ≠ 0 ∧
      (pgfault jos demoUser demoEnv ⟨0, []⟩ demoScratchFault).isPanic = false ∧
      (demoMem.run jos (pgfault jos demoUser demoEnv ⟨0, []⟩ demoScratchFault).state.calls).pt
        demoMem.self (ROUNDDOWN demoScratchFault.utf_fault_va jos.PGSIZE / jos.PGSIZE)
          = none := by
  have hcow : demoMem.vpt jos [] (VPN jos demoScratchFault.utf_fault_va) &&& PTE_COW ≠ 0 := by
    decide
  have herr : demoScratchFault.utf_err &&& demoUser.FEC_WR ≠ 0 := by decide
  have hok := pgfault_model_ok jos (by decide) demoUser demoEnv demoMem ⟨0, []⟩
    demoScratchFault rfl rfl herr hcow (by decide)
  have hend := (pgfault_model_end jos (by decide) demoUser demoEnv demoMem ⟨0, []⟩ _
    demoScratchFault rfl hok).1 demoMem.self
      (ROUNDDOWN demoScratchFault.utf_fault_va jos.PGSIZE / jos.PGSIZE)
  refine ⟨hcow, herr, by rw [hok]; rfl, ?_⟩
  rw [hok]
  simp only [LibResult.state]
  rw [hend, if_pos ⟨rfl, by decide⟩]

/-- C15, amended: for a write fault at an address a outside the scratch page at PFTEMP,
on a page the faulting process has mapped copy-on-write, when `pgfault` returns (all three
system calls succeeded) the process maps the page of ROUNDDOWN(a, PGSIZE) to a physical
page that was in use by no mapping before, with permissions exactly PTE_U|PTE_P|PTE_W
(PTE_W set, PTE_COW clear); the PGSIZE bytes of that page are the bytes the old page held
at fault time; PFTEMP is unmapped; the old physical page and every physical page other
than the fresh one hold the bytes they held; and the mappings of every other process are
as before. -/
theorem pgfault_copy_isolation (C : Consts) (hX : C.X86) (U : UserConsts) (K : UserEnv)
    (m0 : AddrSpaces) (s t : UserLib) (utf : UTrapframe) (w : Nat)
    (hK1 : K.reply = m0.reply C)
    (hw : (m0.run C s.calls).pt (m0.run C s.calls).self (utf.utf_fault_va / C.PGSIZE)
      = some w)
    (hscratch : utf.utf_fault_va / C.PGSIZE ≠ U.PFTEMP / C.PGSIZE)
    (hfresh : ∀ e vpn w', (m0.run C s.calls).pt e vpn = some w' →
      w' / C.PGSIZE < (m0.run C s.calls).next_free)
    (hok : pgfault C U K s utf = .ok t) :
    (m0.run C t.calls).pt (m0.run C s.calls).self
        (ROUNDDOWN utf.utf_fault_va C.PGSIZE / C.PGSIZE)
        = some ((m0.run C s.calls).next_free * C.PGSIZE
          + (C.PTE_U ||| C.PTE_P ||| C.PTE_W)) ∧
      ((m0.run C s.calls).next_free * C.PGSIZE + (C.PTE_U ||| C.PTE_P ||| C.PTE_W))
        / C.PGSIZE = (m0.run C s.calls).next_free ∧
      ((m0.run C s.calls).next_free * C.PGSIZE + (C.PTE_U ||| C.PTE_P ||| C.PTE_W))
        % C.PGSIZE = C.PTE_U ||| C.PTE_P ||| C.PTE_W ∧
      (C.PTE_U ||| C.PTE_P ||| C.PTE_W) &&& C.PTE_W ≠ 0 ∧
      (C.PTE_U ||| C.PTE_P ||| C.PTE_W) &&& PTE_COW = 0 ∧
      (∀ e vpn w', (m0.run C s.calls).pt e vpn = some w' →
        w' / C.PGSIZE ≠ (m0.run C s.calls).next_free) ∧
      (∀ off, off < C.PGSIZE →
        (m0.run C t.calls).phys (m0.run C s.calls).next_free off
          = (m0.run C s.calls).phys (w / C.PGSIZE) off) ∧
      (m0.run C t.calls).pt (m0.run C s.calls).self (U.PFTEMP / C.PGSIZE) = none ∧
      (∀ p off, p ≠ (m0.run C s.calls).next_free →
        (m0.run C t.calls).phys p off = (m0.run C s.calls).phys p off) ∧
      (∀ off, (m0.run C t.calls).phys (w / C.PGSIZE) off
        = (m0.run C s.calls).phys (w / C.PGSIZE) off) ∧
      (∀ e vpn, e ≠ (m0.run C s.calls).self →
        (m0.run C t.calls).pt e vpn = (m0.run C s.calls).pt e vpn) := by
  obtain ⟨hpt, hphys⟩ := pgfault_model_end C hX U K m0 s t utf hK1 hok
  obtain ⟨hP, hW, hU, hPG⟩ := hX
  have hpos : 0 < C.PGSIZE := by omega
  have hperm : C.PTE_U ||| C.PTE_P ||| C.PTE_W < C.PGSIZE := by
    rw [hP, hU, hW, hPG]; decide
  obtain ⟨_, hrd⟩ := rounddown_aligned utf.utf_fault_va C.PGSIZE hpos
  obtain ⟨hem, hed⟩ := entry_perm C (m0.run C s.calls).next_free _ hperm
  have hold : w / C.PGSIZE ≠ (m0.run C s.calls).next_free :=
    Nat.ne_of_lt (hfresh _ _ w hw)
  refine ⟨?_, hed, hem, ?_, ?_, ?_, ?_, ?_, ?_, ?_, ?_⟩
  · rw [hpt, hrd, if_neg (fun h => hscratch h.2), if_pos ⟨rfl, rfl⟩]
  · rw [hP, hU, hW]; decide
  · rw [hP, hU, hW]; decide
  · intro e vpn w' h
    exact Nat.ne_of_lt (hfresh e vpn w' h)
  · intro off hoff
    rw [hphys, if_pos ⟨rfl, hoff⟩, if_neg hscratch, hw]
    simp only [hold, if_false]
  · rw [hpt, if_pos ⟨rfl, rfl⟩]
  · intro p off hp
    rw [hphys, if_neg (fun h => hp h.1), if_neg hp]
  · intro off
    rw [hphys, if_neg (fun h => hold h.1), if_neg hold]
  · intro e vpn he
    rw [hpt, if_neg (fun h => he h.1), if_neg (fun h => he h.1)]

theorem pgfault_copy_isolation_witness :
    (demoMem.run jos (pgfault jos demoUser demoEnv (UserLib.mk 0 [])
        demoWriteFault).state.calls).pt (demoMem.run jos (UserLib.mk 0 []).calls).self
        (demoUser.PFTEMP / jos.PGSIZE) = none :=
  (pgfault_copy_isolation jos (by decide) demoUser demoEnv demoMem (UserLib.mk 0 [])
    (pgfault jos demoUser demoEnv (UserLib.mk 0 []) demoWriteFault).state demoWriteFault
    (5 * 4096 + 0x805) rfl (by decide) (by decide)
    (by
      intro e vpn w' h
      have h' : demoMem.pt e vpn = some w' := h
      simp only [demoMem] at h'
      split at h'
      · cases h'; decide
      · split at h'
        · cases h'; decide
        · split at h'
          · cases h'; decide
          · cases h')
    (by
      rw [pgfault_model_ok jos (by decide) demoUser demoEnv demoMem (UserLib.mk 0 [])
        demoWriteFault rfl rfl (by decide) (by decide) (by decide)]
      rfl)).2.2.2.2.2.2.2.1

/-! ## Worked instances for the calls of lib/fork.c -/

theorem pgfault_panics_first_iff_witness :
    ∃ rest, (pgfault jos demoUser demoEnv (UserLib.mk 0 []) demoWriteFault).state.calls =
      (UserLib.mk 0 []).calls ++
        Syscall.sys_page_alloc 0 demoUser.PFTEMP (jos.PTE_U ||| jos.PTE_P ||| jos.PTE_W)
          :: rest :=
  (pgfault_panics_first_iff jos demoUser demoEnv (UserLib.mk 0 []) demoWriteFault).2
    (by decide)

theorem cow_invariant_witness :
    (Syscall.sys_page_alloc 0 0xeebff000 7).permOk jos :=
  (cow_invariant jos (by decide) demoUser demoEnv (UserLib.mk 0 [])).2.2.2.1 0x800200 0x800300
    (Syscall.sys_page_alloc 0 0xeebff000 7) (by decide)

end JOS
